import Mathlib

/-
Verification development for the NodeDecisionLibrary decision engine
(NodeDecisionLibrary.cpp / NodeDecisionLibrary.h).

The C++ code is shallowly embedded: std::map is modelled as a
key-sorted association list (matching the sorted iteration order of
std::map), std::vector as List, machine booleans as Bool, C++ int ids
as Int, unsigned long millisecond times as Nat reduced mod 2^32
(unsigned long is 32 bits on the Arduino targets this library is
written for), and double as the exact rationals that the relevant
code paths compute with.  Code whose execution is undefined in C++
(null-pointer dereference, out-of-bounds vector indexing, unbounded
recursion, increment of an invalidated map iterator) is modelled by
Option, with none standing for the absence of any defined result.
-/

set_option maxRecDepth 20000

namespace NodeDecision

/-! ## Data model (NodeDecisionLibrary.h, lines 27-59) -/

/-- InputData: id, dataType, data (current scalar value as a string). -/
structure InputData where
  id : Int
  dataType : String
  data : String
deriving DecidableEq

/-- OutputData: id, dataType, data, deviceId, configId. -/
structure OutputData where
  id : Int
  dataType : String
  data : String
  deviceId : Int
  configId : Int
deriving DecidableEq

/-- NodeData: id, availableId, kind, inputs, outputs. -/
structure NodeData where
  id : Int
  availableId : Int
  kind : String
  inputs : List InputData
  outputs : List OutputData
deriving DecidableEq

/-- RelationshipData: id, inputId (consuming port), outputId (producing port), configId. -/
structure RelationshipData where
  id : Int
  inputId : Int
  outputId : Int
  configId : Int
deriving DecidableEq

/-! ## Association lists modelling std::map<int, A>

The entries are kept sorted by key, as in std::map, so that list
iteration coincides with std::map iteration order. -/

/-- Lookup in an association list (first entry with a matching key). -/
def alLookup {A : Type} : List (Int × A) → Int → Option A
  | [], _ => none
  | (k, v) :: t, x => if x = k then some v else alLookup t x

/-- Insert or overwrite a key, preserving sortedness of the key sequence. -/
def alSet {A : Type} : List (Int × A) → Int → A → List (Int × A)
  | [], x, v => [(x, v)]
  | (k, w) :: t, x, v =>
    if x < k then (x, v) :: (k, w) :: t
    else if x = k then (x, v) :: t
    else (k, w) :: alSet t x v

/-- The std::map operator[] applied with a default, registering the key
with value d when it is absent (the returned map). -/
def alTouch {A : Type} (l : List (Int × A)) (k : Int) (d : A) : List (Int × A) :=
  if (alLookup l k).isSome then l else alSet l k d

/-- Read through operator[] with default d (the returned value). -/
def alGetD {A : Type} (l : List (Int × A)) (k : Int) (d : A) : A :=
  (alLookup l k).getD d

/-- inDegree[k] += delta, with operator[] default-inserting 0. -/
def alBump (l : List (Int × Int)) (k : Int) (delta : Int) : List (Int × Int) :=
  alSet l k (alGetD l k 0 + delta)

/-- Erase a key. -/
def alErase {A : Type} : List (Int × A) → Int → List (Int × A)
  | [], _ => []
  | (k, v) :: t, x => if x = k then t else (k, v) :: alErase t x

/-! ## Value coercion (NodeDecisionLibrary.cpp, lines 353-394 and 474-505) -/

/-- Characters trimmed by convertToBool (source line 478: the set " \t\n\r"). -/
def isTrimChar (c : Char) : Bool :=
  c = ' ' || c = '\t' || c = '\n' || c = '\r'

/-- Trim leading and trailing " \t\n\r" characters (source lines 477-479). -/
def trimWS (s : String) : String :=
  String.mk (((s.data.dropWhile isTrimChar).reverse.dropWhile isTrimChar).reverse)

/-- ASCII tolower applied per character (source uses ::tolower). -/
def lowerChar (c : Char) : Char :=
  if 'A' ≤ c && c ≤ 'Z' then Char.ofNat (c.toNat + 32) else c

/-- Lowercase every character of a string. -/
def lowerString (s : String) : String :=
  String.mk (s.data.map lowerChar)

/-- Whitespace skipped by std::stod before the number (C isspace set). -/
def isSpaceChar (c : Char) : Bool :=
  c = ' ' || c = '\t' || c = '\n' || c = '\x0b' || c = '\x0c' || c = '\r'

/-- Digit string to natural number. -/
def digitsToNat (l : List Char) : Nat :=
  l.foldl (fun a c => a * 10 + (c.toNat - 48)) 0

/-- Exponent part of a std::stod literal: optional sign then digits;
an exponent marker without digits contributes nothing (strtod takes the
longest valid prefix). -/
def expPart (t : List Char) : Int :=
  let p : Bool × List Char :=
    match t with
    | '-' :: u => (true, u)
    | '+' :: u => (false, u)
    | _ => (false, t)
  let ds := p.2.takeWhile Char.isDigit
  if ds.isEmpty then 0
  else if p.1 then -(digitsToNat ds : Int) else (digitsToNat ds : Int)

/-- Model of std::stod: skip leading whitespace, optional sign, decimal
digits with optional fraction and exponent; none models the
std::invalid_argument throw when no conversion is possible.  The model
covers the decimal fragment; hexadecimal, infinity and NaN literals,
which std::stod also accepts, are outside the modelled fragment (no
claim in this development depends on them), and the parsed value is
kept exact rather than rounded to binary64. -/
def stodQ (s : String) : Option ℚ :=
  let cs := s.data.dropWhile isSpaceChar
  let p : Bool × List Char :=
    match cs with
    | '-' :: t => (true, t)
    | '+' :: t => (false, t)
    | _ => (false, cs)
  let ip := p.2.takeWhile Char.isDigit
  let r1 := p.2.dropWhile Char.isDigit
  let q : List Char × List Char :=
    match r1 with
    | '.' :: t => (t.takeWhile Char.isDigit, t.dropWhile Char.isDigit)
    | _ => ([], r1)
  if ip.isEmpty && q.1.isEmpty then none
  else
    let mant : ℚ := (digitsToNat ip : ℚ) + (digitsToNat q.1 : ℚ) / ((10 : ℚ) ^ q.1.length)
    let ex : Int :=
      match q.2 with
      | 'e' :: t => expPart t
      | 'E' :: t => expPart t
      | _ => 0
    let v : ℚ := mant * (10 : ℚ) ^ ex
    some (if p.1 then -v else v)

/-- Common trunk of the two boolean coercions in the source: compare the
lowered string against the eight literals, otherwise parse numSrc with
std::stod (nonzero means true, parse failure means false). -/
def coerceCore (lowered : String) (numSrc : String) : Bool :=
  if lowered = "true" ∨ lowered = "1" ∨ lowered = "yes" ∨ lowered = "on" then true
  else if lowered = "false" ∨ lowered = "0" ∨ lowered = "no" ∨ lowered = "off" then false
  else
    match stodQ numSrc with
    | some q => decide (q ≠ 0)
    | none => false

/-- The inline boolean coercion applied to logic-gate inputs
(source lines 356-383): lowercases the raw value without trimming and,
when no literal matches, parses the raw value. -/
def gateCoerce (val : String) : Bool :=
  coerceCore (lowerString val) val

/-- convertToBool (source lines 474-505): trims, lowercases the trimmed
value and, when no literal matches, parses the trimmed value. -/
def convertToBool (value : String) : Bool :=
  coerceCore (lowerString (trimWS value)) (trimWS value)

/-! ## Debounce / oscillation gate
(NodeDecisionLibrary.cpp, lines 507-526 and 614-638) -/

/-- Wrapping unsigned subtraction on 32-bit unsigned long millis values. -/
def ulSub (a b : Nat) : Nat :=
  (a + (4294967296 - b % 4294967296)) % 4294967296

/-- The per-device debounce state: pendingValues and lastTriggerTime. -/
structure DebSt where
  pending : List (Int × Bool)
  last : List (Int × Nat)
deriving DecidableEq

/-- The initial debounce state: both maps empty. -/
def initDebSt : DebSt := ⟨[], []⟩

/-- processDeviceChange (source lines 614-638).  The second component is
the callback invocation performed by this call, if any (the callback is
assumed registered). -/
def processDeviceChange (dur : Nat) (st : DebSt) (deviceId : Int) (now : Nat)
    (newValue : Bool) : DebSt × Option Bool :=
  if (alLookup st.pending deviceId).isSome ∧
      (alLookup st.pending deviceId).getD newValue ≠ newValue then
    (⟨alSet st.pending deviceId newValue, alSet st.last deviceId now⟩, none)
  else if (alLookup st.last deviceId) = none ∨
      ulSub now ((alLookup st.last deviceId).getD 0) ≥ dur then
    (⟨alSet st.pending deviceId newValue, alSet st.last deviceId now⟩, some newValue)
  else
    (st, none)

/-- One iteration step of the processPendingChanges sweep over the
pendingValues entries (in std::map key order).  When an entry fires, the
callback runs and both entries are erased, after which the loop
increments the iterator that the erase invalidated: everything from that
point on is undefined behavior in C++, so the final state is none; the
callbacks already invoked are the recorded observable behavior. -/
def sweepGo (dur now : Nat) :
    List (Int × Bool) → DebSt → List (Int × Bool) → List (Int × Bool) × Option DebSt
  | [], st, fired => (fired, some st)
  | (d, v) :: rest, st, fired =>
    -- source line 515 reads lastTriggerTime[deviceId] through operator[],
    -- default-registering 0 for an absent key
    let st1 : DebSt := ⟨st.pending, alTouch st.last d 0⟩
    if ulSub now (alGetD st1.last d 0) ≥ dur then
      (fired ++ [(d, v)], none)
    else
      sweepGo dur now rest st1 fired

/-- processPendingChanges (source lines 507-526): sweep the pending map;
returns the callback invocations in order and the final state (none once
the erase-then-increment undefined behavior is reached). -/
def processPendingChanges (dur : Nat) (st : DebSt) (now : Nat) :
    List (Int × Bool) × Option DebSt :=
  sweepGo dur now st.pending st []

/-! ## Topological scheduler (NodeDecisionLibrary.cpp, lines 191-268) -/

/-- One node of the connectionToNodeMap construction (source lines
201-211): the ids of the inputs and then of the outputs of the node are
mapped to the node id. -/
def connStepNode (m : List (Int × Int)) (n : NodeData) : List (Int × Int) :=
  n.outputs.foldl (fun m o => alSet m o.id n.id)
    (n.inputs.foldl (fun m i => alSet m i.id n.id) m)

/-- connectionToNodeMap (source lines 200-211). -/
def connMap (nodes : List NodeData) : List (Int × Int) :=
  nodes.foldl connStepNode []

/-- Port id to owning node id, as read through connectionToNodeMap
operator[] (default 0 for an unregistered port id). -/
def portToNode (nodes : List NodeData) (pid : Int) : Int :=
  alGetD (connMap nodes) pid 0

/-- The directed arcs (producer node, consumer node), one per
relationship, in relationship order (source lines 213-221). -/
def buildArcs (nodes : List NodeData) (rels : List RelationshipData) : List (Int × Int) :=
  rels.map (fun r => (portToNode nodes r.outputId, portToNode nodes r.inputId))

/-- inDegree accumulation for one arc (source lines 219-220): the target
is incremented through operator[], then the source is registered with
in-degree 0 if absent. -/
def degStep (d : List (Int × Int)) (a : Int × Int) : List (Int × Int) :=
  alTouch (alBump d a.2 1) a.1 0

/-- The inDegree map after processing all relationships. -/
def buildDeg (arcs : List (Int × Int)) : List (Int × Int) :=
  arcs.foldl degStep []

/-- graph[u]: the consumers of node u in push order (source line 218). -/
def adjOf (arcs : List (Int × Int)) (u : Int) : List Int :=
  (arcs.filter (fun a => a.1 == u)).map (fun a => a.2)

/-- One decrement of the dependent loop (source lines 242-251): the
dependent in-degree is decremented and the dependent is queued when the
decremented value is exactly zero. -/
def relaxStep (p : List (Int × Int) × List Int) (dep : Int) :
    List (Int × Int) × List Int :=
  let d := alBump p.1 dep (-1)
  if alLookup d dep = some 0 then (d, p.2 ++ [dep]) else (d, p.2)

/-- The Kahn worklist loop (source lines 235-252), fuelled: pop the
queue front, append it to the order, relax its dependents and enqueue
the ones whose in-degree reached zero.  The fuel supplied by
topologicalSort is proved sufficient below, so the fuel-exhaustion arm
is never reached from topologicalSort. -/
def kahnLoop (adj : Int → List Int) :
    Nat → List Int → List (Int × Int) → List Int → List Int × List (Int × Int)
  | 0, _, d, acc => (acc, d)
  | _ + 1, [], d, acc => (acc, d)
  | fuel + 1, c :: q, d, acc =>
    let s := (adj c).foldl relaxStep (d, [])
    kahnLoop adj fuel (q ++ s.2) s.1 (acc ++ [c])

/-- topologicalSort (source lines 191-268): build the arc multigraph and
the in-degree map, seed the queue with the zero in-degree nodes in
std::map key order, run the worklist loop, and return the empty order
when the result does not cover every registered node (cycle). -/
def topologicalSort (nodes : List NodeData) (rels : List RelationshipData) : List Int :=
  let arcs := buildArcs nodes rels
  let d0 := buildDeg arcs
  let seeds := (d0.filter (fun p => p.2 == 0)).map (fun p => p.1)
  let r := kahnLoop (adjOf arcs) (d0.length + 1) seeds d0 []
  if r.1.length ≠ r.2.length then [] else r.1

/-- The arc relation on node ids induced by the loaded relationships. -/
def isArc (nodes : List NodeData) (rels : List RelationshipData) (u v : Int) : Prop :=
  (u, v) ∈ buildArcs nodes rels

/-- The step relation of an arc multigraph. -/
def arcStep (arcs : List (Int × Int)) (u v : Int) : Prop :=
  (u, v) ∈ arcs

/-- The keys of an association list. -/
def alKeys {A : Type} (l : List (Int × A)) : List Int :=
  l.map Prod.fst

/-- Strictly ascending key sequence (the std::map invariant the sorted
association lists maintain). -/
def ASorted {A : Type} (l : List (Int × A)) : Prop :=
  l.Pairwise (fun p q => p.1 < q.1)

/-- The endpoints of the arcs: every node id registered in the inDegree
map, sources and targets alike. -/
def arcNodes (arcs : List (Int × Int)) : List Int :=
  arcs.flatMap (fun a => [a.1, a.2])

/-- The number of arcs whose target is x, with multiplicity: the
in-degree the build loop accumulates for x. -/
def targetCount (arcs : List (Int × Int)) (x : Int) : Nat :=
  (arcs.filter (fun a => a.2 == x)).length

/-- The number of arcs into x whose source lies in s, with multiplicity:
the decrements x has received once the nodes of s are popped. -/
def fromCount (arcs : List (Int × Int)) (s : List Int) (x : Int) : Nat :=
  (arcs.filter (fun a => a.2 == x && s.contains a.1)).length

/-- The number of arcs from c to x, with multiplicity. -/
def eCount (arcs : List (Int × Int)) (c x : Int) : Nat :=
  (arcs.filter (fun a => a.1 == c && a.2 == x)).length

/-- The invariant of the Kahn worklist loop: q the queue, d the current
in-degree map, acc the order built so far (a proof device over the
fixed arc multigraph). -/
structure KahnInv (arcs : List (Int × Int)) (q : List Int) (d : List (Int × Int))
    (acc : List Int) : Prop where
  sorted : ASorted d
  keys : ∀ x, x ∈ alKeys d ↔ x ∈ arcNodes arcs
  accN : acc.Nodup
  qN : q.Nodup
  disj : ∀ x ∈ acc, x ∉ q
  accR : ∀ x ∈ acc, x ∈ arcNodes arcs
  qR : ∀ x ∈ q, x ∈ arcNodes arcs
  val : ∀ x ∈ arcNodes arcs,
    alLookup d x = some ((targetCount arcs x : Int) - (fromCount arcs acc x : Int))
  zero : ∀ x ∈ arcNodes arcs,
    (x ∈ acc ∨ x ∈ q) ↔ fromCount arcs acc x = targetCount arcs x
  sound : ∀ a ∈ arcs, a.2 ∈ acc →
    a.1 ∈ acc ∧ acc.indexOf a.1 < acc.indexOf a.2

/-! ## Graph loader edge filter (NodeDecisionLibrary.cpp, lines 150-185) -/

/-- The union of every input port id of the device (validInputIds,
source lines 151-159). -/
def inputIdsOf (nodes : List NodeData) : List Int :=
  nodes.flatMap (fun n => n.inputs.map (fun i => i.id))

/-- The union of every output port id of the device (validOutputIds,
source lines 152-163). -/
def outputIdsOf (nodes : List NodeData) : List Int :=
  nodes.flatMap (fun n => n.outputs.map (fun o => o.id))

/-- All port ids of the device (the union of inputs and outputs). -/
def allPortIdsOf (nodes : List NodeData) : List Int :=
  inputIdsOf nodes ++ outputIdsOf nodes

/-- The edge filter of decodeLogicData (source lines 166-185): a
candidate relationship is admitted exactly when its inputId occurs among
the input port ids and its outputId among the output port ids. -/
def filterRelationships (nodes : List NodeData) (rels : List RelationshipData) :
    List RelationshipData :=
  rels.filter (fun r => (inputIdsOf nodes).contains r.inputId &&
    (outputIdsOf nodes).contains r.outputId)

/-! ## Evaluation engine (NodeDecisionLibrary.cpp, lines 270-472) -/

/-- The double-precision primitives the engine depends on that are not
exact rational operations: pow, log, sqrt, exp (mathNodeMap entries 12,
13, 14, 16) and std::to_string on double.  The embedding is
parameterized by them; no claim in this development depends on their
values. -/
structure Prims where
  powFn : ℚ → ℚ → ℚ
  logFn : ℚ → ℚ
  sqrtFn : ℚ → ℚ
  expFn : ℚ → ℚ
  fmtDouble : ℚ → String

/-- A throwaway instantiation of the primitives, used only to evaluate
graphs that contain no pow/log/sqrt/exp node and no math output. -/
def dummyPrims : Prims := ⟨fun _ _ => 0, fun _ => 0, fun _ => 0, fun _ => 0, fun _ => ""⟩

/-- The keys of nodeLogicMap (constructor, source lines 10-23 and 76-77). -/
def logicIds : List Int := [1, 2, 3, 4, 5, 6, 7, 28]

/-- The keys of mathNodeMap (constructor, source lines 26-74). -/
def mathIds : List Int :=
  [8, 9, 10, 11, 12, 13, 14, 15, 16, 17, 18, 19, 20, 21, 22, 23, 24, 25, 26, 27]

/-- The nodeLogicMap entries (source lines 10-23, 76-77).  Each lambda
indexes its inputs vector; an index beyond the vector is undefined
behavior in C++ and yields none. -/
def logicFn : Int → List Bool → Option Bool
  | 1, i => (i.get? 0).map (fun a => !a)
  | 2, i => (i.get? 0).bind (fun a => (i.get? 1).map (fun b => a && b))
  | 3, i => (i.get? 0).bind (fun a => (i.get? 1).map (fun b => a || b))
  | 4, i => (i.get? 0).bind (fun a => (i.get? 1).map (fun b => Bool.xor a b))
  | 5, i => (i.get? 0).bind (fun a => (i.get? 1).map (fun b => !(a || b)))
  | 6, i => (i.get? 0).bind (fun a => (i.get? 1).map (fun b => !(a && b)))
  | 7, i => (i.get? 0).bind (fun a => (i.get? 1).map (fun b => !(Bool.xor a b)))
  | 28, i => i.get? 0
  | _, _ => none

/-- Binary math lambda: reads inputs[0] and inputs[1]. -/
def binQ (i : List ℚ) (f : ℚ → ℚ → ℚ) : Option ℚ :=
  (i.get? 0).bind (fun a => (i.get? 1).map (f a))

/-- Unary math lambda: reads inputs[0]. -/
def unQ (i : List ℚ) (f : ℚ → ℚ) : Option ℚ :=
  (i.get? 0).map f

/-- C round: round half away from zero. -/
def roundC (q : ℚ) : ℚ :=
  if 0 ≤ q then ((⌊q + 1/2⌋ : ℤ) : ℚ) else ((⌈q - 1/2⌉ : ℤ) : ℚ)

/-- The mathNodeMap entries (source lines 26-74).  Entry 11 is DIVIDE
with the explicit zero-divisor guard of source lines 32-33. -/
def mathFn (p : Prims) : Int → List ℚ → Option ℚ
  | 8, i => binQ i (fun a b => a + b)
  | 9, i => binQ i (fun a b => a - b)
  | 10, i => binQ i (fun a b => a * b)
  | 11, i => binQ i (fun a b => if b ≠ 0 then a / b else 0)
  | 12, i => binQ i p.powFn
  | 13, i => unQ i p.logFn
  | 14, i => unQ i p.sqrtFn
  | 15, i => unQ i (fun a => |a|)
  | 16, i => unQ i p.expFn
  | 17, i => binQ i min
  | 18, i => binQ i max
  | 19, i => binQ i (fun a b => if a < b then 1 else 0)
  | 20, i => binQ i (fun a b => if a > b then 1 else 0)
  | 21, i => binQ i (fun a b => if a ≤ b then 1 else 0)
  | 22, i => binQ i (fun a b => if a ≥ b then 1 else 0)
  | 23, i => binQ i (fun a b => if a = b then 1 else 0)
  | 24, i => binQ i (fun a b => if a ≠ b then 1 else 0)
  | 25, i => unQ i roundC
  | 26, i => unQ i (fun a => ((⌊a⌋ : ℤ) : ℚ))
  | 27, i => unQ i (fun a => ((⌈a⌉ : ℤ) : ℚ))
  | _, _ => none

/-- The state of one evaluateNodeInput call: the (shared, mutated) node
store, the local calculatedOutputValues and calculatedDeviceValues maps,
and the list of node ids whose body was entered (the evaluation trace,
recording every recomputation). -/
structure EvalSt where
  nodes : List NodeData
  memo : List (Int × String)
  dvals : List (Int × String)
  trace : List Int
deriving DecidableEq

/-- Index of the first node with the given id (the node-resolution loop
of source lines 284-292), offset-carrying helper. -/
def findNodeIdxGo : List NodeData → Int → Nat → Option Nat
  | [], _, _ => none
  | n :: t, x, i => if n.id = x then some i else findNodeIdxGo t x (i + 1)

/-- Index of the first node with the given id. -/
def findNodeIdx (nodes : List NodeData) (x : Int) : Option Nat :=
  findNodeIdxGo nodes x 0

/-- calculatedOutputValues[k] read through operator[]: default-registers
an empty string for an absent key (source lines 314 and 462). -/
def memoGetD (st : EvalSt) (k : Int) : String × EvalSt :=
  match alLookup st.memo k with
  | some v => (v, st)
  | none => ("", { st with memo := alSet st.memo k "" })

/-- Overwrite the data field of input ii of node ni. -/
def updInput (nodes : List NodeData) (ni ii : Nat) (v : String) : List NodeData :=
  match nodes.get? ni with
  | none => nodes
  | some n =>
    match n.inputs.get? ii with
    | none => nodes
    | some inp => nodes.set ni { n with inputs := n.inputs.set ii { inp with data := v } }

/-- Overwrite the data field of output oi of node ni. -/
def updOutput (nodes : List NodeData) (ni oi : Nat) (v : String) : List NodeData :=
  match nodes.get? ni with
  | none => nodes
  | some n =>
    match n.outputs.get? oi with
    | none => nodes
    | some o => nodes.set ni { n with outputs := n.outputs.set oi { o with data := v } }

/-- Innermost producer scan for one matching relationship (source lines
307-318): every output port of every node is compared with the
relationship outputId; on a match the producing node is evaluated
recursively, the memo entry of the output port is read through
operator[] (default-registering an empty string) and the value is
copied into the consuming input port.  The accumulator carries the
running inputValue and the state; prods snapshots the immutable node
ids and output port ids. -/
def scanProducers (evalRec : EvalSt → Int → Option EvalSt) (outId : Int) (ni ii : Nat)
    (prods : List (Int × List Int)) (acc : String × EvalSt) : Option (String × EvalSt) :=
  prods.foldlM (fun acc p =>
    p.2.foldlM (fun (acc : String × EvalSt) oid =>
      if oid = outId then do
        let st ← evalRec acc.2 p.1
        let r := memoGetD st outId
        pure (r.1, { r.2 with nodes := updInput r.2.nodes ni ii r.1 })
      else pure acc) acc) acc

/-- Relationship scan for one input port (source lines 301-320). -/
def scanRels (evalRec : EvalSt → Int → Option EvalSt) (rels : List RelationshipData)
    (inId : Int) (ni ii : Nat) (prods : List (Int × List Int)) (acc : String × EvalSt) :
    Option (String × EvalSt) :=
  rels.foldlM (fun acc r =>
    if r.inputId = inId then scanProducers evalRec r.outputId ni ii prods acc
    else pure acc) acc

/-- The input-resolution loop (source lines 296-327): for each input
port of node ni, start from the stored default value, then let every
matching relationship overwrite it from its producer; collect the
resulting inputValues vector. -/
def resolveInputs (evalRec : EvalSt → Int → Option EvalSt) (rels : List RelationshipData)
    (ni nIn : Nat) (prods : List (Int × List Int)) (st : EvalSt) :
    Option (List String × EvalSt) :=
  (List.range nIn).foldlM (fun (acc : List String × EvalSt) ii =>
    match (acc.2.nodes.get? ni).bind (fun n => n.inputs.get? ii) with
    | none => pure acc
    | some inp => do
      let r ← scanRels evalRec rels inp.id ni ii prods (inp.data, acc.2)
      pure (acc.1 ++ [r.1], r.2)) ([], st)

/-- Device-source dispatch, availableId 30 (source lines 330-340): each
output whose deviceId has an entry in the deviceValues table receives
that entry, in the output port and in the memo. -/
def dispatchDevice (devVals : List (Int × String)) (ni : Nat) (st : EvalSt) : EvalSt :=
  match st.nodes.get? ni with
  | none => st
  | some n =>
    (List.range n.outputs.length).foldl (fun st oi =>
      match (st.nodes.get? ni).bind (fun n => n.outputs.get? oi) with
      | none => st
      | some o =>
        match alLookup devVals o.deviceId with
        | some v =>
          { st with nodes := updOutput st.nodes ni oi v, memo := alSet st.memo o.id v }
        | none => st) st

/-- Write a result string into every output port of node ni and into the
memo keyed by output port id (source lines 389-393 and 416-420). -/
def writeOutputs (ni : Nat) (res : String) (st : EvalSt) : EvalSt :=
  match st.nodes.get? ni with
  | none => st
  | some n =>
    (List.range n.outputs.length).foldl (fun st oi =>
      match (st.nodes.get? ni).bind (fun n => n.outputs.get? oi) with
      | none => st
      | some o =>
        { st with nodes := updOutput st.nodes ni oi res, memo := alSet st.memo o.id res }) st

/-- calculateNodeValues (source lines 277-425), fuelled on recursion
depth (the C++ recursion is unbounded, and does not terminate on a
cyclic graph because the memo guard checks node ids against a table
keyed by output port ids; none models the absence of a defined result).
The guard, the node resolution, the input-resolution loop and the
five-way dispatch follow the source order. -/
def calcNode (p : Prims) (devVals : List (Int × String)) (rels : List RelationshipData) :
    Nat → EvalSt → Int → Option EvalSt
  | 0, _, _ => none
  | fuel + 1, st, nodeId =>
    if (alLookup st.memo nodeId).isSome then some st
    else
      match findNodeIdx st.nodes nodeId with
      | none => some st
      | some ni => do
        let st := { st with trace := st.trace ++ [nodeId] }
        let prods := st.nodes.map (fun n => (n.id, n.outputs.map (fun o => o.id)))
        let nIn := ((st.nodes.get? ni).map (fun n => n.inputs.length)).getD 0
        let r ← resolveInputs (calcNode p devVals rels fuel) rels ni nIn prods st
        let st := r.2
        let aid := ((st.nodes.get? ni).map (fun n => n.availableId)).getD 0
        if aid = 30 then
          pure (dispatchDevice devVals ni st)
        else if aid = 28 then
          match (st.nodes.get? ni).bind (fun n => n.inputs.get? 0) with
          | some inp0 =>
            pure { st with
              dvals := alSet st.dvals nodeId (if convertToBool inp0.data then "true" else "false") }
          | none => pure st
        else if logicIds.contains aid then do
          let res ← logicFn aid (r.1.map gateCoerce)
          pure (writeOutputs ni (if res then "true" else "false") st)
        else if mathIds.contains aid then do
          let res ← mathFn p aid (r.1.map (fun v => (stodQ v).getD 0))
          pure (writeOutputs ni (if res = 1 then "1.0" else p.fmtDouble res) st)
        else
          pure st

/-- Result extraction from the first output port (source lines 460-471):
the memo entry of the first output id is read through operator[]; a
literal "true"/"false" is returned as a boolean, anything else falls to
false. -/
def evalTail (tn : NodeData) (st : EvalSt) : Option (Bool × EvalSt) :=
  match tn.outputs with
  | o :: _ =>
    let r := memoGetD st o.id
    if r.1 = "true" ∨ r.1 = "false" then some (r.1 == "true", r.2) else some (false, r.2)
  | [] => some (false, st)

/-- evaluateNodeInput (source lines 270-472).  The memo maps are local
to the call (fresh per invocation); the node store is shared.  When the
target node id resolves to no node, line 455 short-circuits on the null
pointer but line 460 dereferences it: none models that undefined
behavior. -/
def evaluateNodeInput (p : Prims) (devVals : List (Int × String)) (fuel : Nat)
    (nodes : List NodeData) (rels : List RelationshipData) (targetId : Int) :
    Option (Bool × EvalSt) := do
  let st ← calcNode p devVals rels fuel ⟨nodes, [], [], []⟩ targetId
  match st.nodes.find? (fun n => n.id == targetId) with
  | some tn =>
    if tn.availableId = 28 then
      match tn.inputs with
      | i0 :: _ => pure (convertToBool i0.data, st)
      | [] => evalTail tn st
    else evalTail tn st
  | none => none

/-- One pass of updateDeviceValues for a single device (source lines
582-609): topological sort, then evaluateNodeInput for each node id in
order, threading the shared node store; after each evaluation, every
node with that id and availableId 28 hands the boolean to
processDeviceChange — collected here as the decision list.  Also
returns the concatenation of the per-call evaluation traces. -/
def devicePass (p : Prims) (devVals : List (Int × String)) (fuel : Nat) (deviceId : Int)
    (nodes : List NodeData) (rels : List RelationshipData) :
    Option (List NodeData × List (Int × Bool) × List Int) :=
  (topologicalSort nodes rels).foldlM
    (fun (acc : List NodeData × List (Int × Bool) × List Int) nodeId => do
      let r ← evaluateNodeInput p devVals fuel acc.1 rels nodeId
      let dec := (r.2.nodes.filter (fun n => n.id == nodeId && n.availableId == 28)).map
        (fun _ => (deviceId, r.1))
      pure (r.2.nodes, acc.2.1 ++ dec, acc.2.2 ++ r.2.trace))
    (nodes, [], [])

/-! ## Concrete device graphs used as inputs in the claim checks -/

/-- A boolean input port with a stored default value. -/
def mkIn (i : Int) (d : String) : InputData := ⟨i, "bool", d⟩

/-- A boolean output port with empty data and no device binding. -/
def mkOut (o : Int) : OutputData := ⟨o, "bool", "", 0, 0⟩

/-- A relationship from producing output port o to consuming input port i. -/
def mkRel (i o : Int) : RelationshipData := ⟨0, i, o, 0⟩

/-- Diamond graph, node 1: a NOT gate with input port 10 (default
"false") and output port 11. -/
def diamondN1 : NodeData := ⟨1, 1, "NOT", [mkIn 10 "false"], [mkOut 11]⟩

/-- Diamond graph, node 2: a NOT gate fed by node 1. -/
def diamondN2 : NodeData := ⟨2, 1, "NOT", [mkIn 20 "null"], [mkOut 21]⟩

/-- Diamond graph, node 3: a NOT gate fed by node 1. -/
def diamondN3 : NodeData := ⟨3, 1, "NOT", [mkIn 30 "null"], [mkOut 31]⟩

/-- Diamond graph, node 4: an AND gate joining nodes 2 and 3. -/
def diamondN4 : NodeData := ⟨4, 2, "AND", [mkIn 40 "null", mkIn 41 "null"], [mkOut 42]⟩

/-- Diamond graph: node 1 (NOT) feeds nodes 2 and 3 (NOT), which feed
node 4 (AND).  Port ids are disjoint from node ids. -/
def diamondNodes : List NodeData := [diamondN1, diamondN2, diamondN3, diamondN4]

/-- The four edges of the diamond graph. -/
def diamondRels : List RelationshipData :=
  [mkRel 20 11, mkRel 30 11, mkRel 40 21, mkRel 41 31]

/-- Node 1 has the unrecognized availableId 99; its output port 11 feeds
the input port 20 of node 2 (NOT), whose stored default is "true". -/
def unkNodes : List NodeData :=
  [⟨1, 99, "mystery", [], [⟨11, "bool", "orig", 0, 0⟩]⟩,
   ⟨2, 1, "NOT", [mkIn 20 "true"], [mkOut 21]⟩]

/-- The single edge from the unrecognized node to its dependent. -/
def unkRels : List RelationshipData := [mkRel 20 11]

/-- The expected node store after one pass over unkNodes: the output of
the unrecognized node is untouched, the dependent input port was
overwritten with the empty string and the NOT of the coercion of the
empty string ("true") was written to the dependent output. -/
def unkExpected : List NodeData :=
  [⟨1, 99, "mystery", [], [⟨11, "bool", "orig", 0, 0⟩]⟩,
   ⟨2, 1, "NOT", [⟨20, "bool", ""⟩], [⟨21, "bool", "true", 0, 0⟩]⟩]

/-- A two-node cycle: output 11 of node 1 feeds input 20 of node 2 and
output 21 of node 2 feeds input 10 of node 1. -/
def cycNodes : List NodeData :=
  [⟨1, 1, "NOT", [mkIn 10 "x"], [mkOut 11]⟩,
   ⟨2, 1, "NOT", [mkIn 20 "y"], [mkOut 21]⟩]

/-- The two edges closing the cycle. -/
def cycRels : List RelationshipData := [mkRel 20 11, mkRel 10 21]

/-- One node with input port 10 and output port 20. -/
def c8Nodes : List NodeData := [⟨1, 2, "AND", [mkIn 10 "null"], [mkOut 20]⟩]

/-- A candidate edge whose inputId 20 and outputId 20 are both members
of the set of all port ids of c8Nodes, but whose inputId is not an
input port id. -/
def c8Edge : RelationshipData := ⟨1, 20, 20, 0⟩

/-- The port ids of one node, inputs then outputs. -/
def nodePortIds (n : NodeData) : List Int :=
  n.inputs.map (fun i => i.id) ++ n.outputs.map (fun o => o.id)

/-- The port id sequence of a device, in connectionToNodeMap insertion
order (per node: inputs then outputs). -/
def portIdsSeq (nodes : List NodeData) : List Int :=
  nodes.flatMap nodePortIds

/-- Debounce scenario state after accepting true at t=0 (device 1,
debounceDuration 10000, no prior state). -/
def c1AfterT0 : DebSt := (processDeviceChange 10000 initDebSt 1 0 true).1

/-- State after the flip to false at t=2000. -/
def c1AfterT2000 : DebSt := (processDeviceChange 10000 c1AfterT0 1 2000 false).1

/-- State after the flip back to true at t=4000. -/
def c1AfterT4000 : DebSt := (processDeviceChange 10000 c1AfterT2000 1 4000 true).1

/-! ## Association list lemmas -/

theorem alLookup_alSet_self {A : Type} (l : List (Int × A)) (x : Int) (v : A) :
    alLookup (alSet l x v) x = some v := by
  induction l with
  | nil => simp [alSet, alLookup]
  | cons hd t ih =>
    obtain ⟨k, w⟩ := hd
    by_cases h1 : x < k
    · simp [alSet, h1, alLookup]
    · by_cases h2 : x = k
      · simp [alSet, h1, h2, alLookup]
      · simp [alSet, h1, h2, alLookup, ih]

theorem alLookup_alSet_ne {A : Type} (l : List (Int × A)) (x y : Int) (v : A)
    (h : y ≠ x) : alLookup (alSet l x v) y = alLookup l y := by
  induction l with
  | nil => simp [alSet, alLookup, h]
  | cons hd t ih =>
    obtain ⟨k, w⟩ := hd
    by_cases h1 : x < k
    · simp [alSet, h1, alLookup, h]
    · by_cases h2 : x = k
      · subst h2; simp [alSet, h1, alLookup, h]
      · by_cases h3 : y = k
        · simp [alSet, h1, h2, alLookup, h3]
        · simp [alSet, h1, h2, alLookup, h3, ih]

theorem mem_alKeys_iff_isSome {A : Type} (l : List (Int × A)) (x : Int) :
    x ∈ alKeys l ↔ (alLookup l x).isSome = true := by
  induction l with
  | nil => simp [alKeys, alLookup]
  | cons hd t ih =>
    obtain ⟨k, w⟩ := hd
    by_cases h : x = k
    · simp [alKeys, alLookup, h]
    · have h2 : (x ∈ alKeys ((k, w) :: t)) ↔ x ∈ alKeys t := by
        simp [alKeys, h]
      rw [h2, ih, alLookup]
      simp [h]

theorem mem_alKeys_alSet {A : Type} (l : List (Int × A)) (x y : Int) (v : A) :
    y ∈ alKeys (alSet l x v) ↔ y = x ∨ y ∈ alKeys l := by
  induction l with
  | nil => simp [alSet, alKeys]
  | cons hd t ih =>
    obtain ⟨k, w⟩ := hd
    by_cases h1 : x < k
    · simp [alSet, h1, alKeys]
    · by_cases h2 : x = k
      · subst h2
        simp [alSet, h1, alKeys]
        try tauto
      · simp [alSet, h1, h2, alKeys] at ih ⊢
        try tauto

theorem ASorted_alSet {A : Type} (l : List (Int × A)) (x : Int) (v : A)
    (h : ASorted l) : ASorted (alSet l x v) := by
  induction l with
  | nil => simp [alSet, ASorted]
  | cons hd t ih =>
    obtain ⟨k, w⟩ := hd
    rw [ASorted, List.pairwise_cons] at h
    obtain ⟨hk, ht⟩ := h
    by_cases h1 : x < k
    · rw [alSet]
      simp only [h1, if_true]
      rw [ASorted, List.pairwise_cons]
      constructor
      · intro p hp
        rcases List.mem_cons.mp hp with h2 | h2
        · subst h2; exact h1
        · exact lt_trans h1 (hk p h2)
      · exact List.pairwise_cons.mpr ⟨hk, ht⟩
    · by_cases h2 : x = k
      · subst h2
        rw [alSet]
        simp only [h1, if_false, if_pos rfl, if_true]
        rw [ASorted, List.pairwise_cons]
        exact ⟨hk, ht⟩
      · rw [alSet]
        simp only [h1, h2, if_false]
        rw [ASorted, List.pairwise_cons]
        constructor
        · intro p hp
          have hp1 : p.1 = x ∨ p.1 ∈ alKeys t := by
            have : p.1 ∈ alKeys (alSet t x v) := List.mem_map_of_mem Prod.fst hp
            exact (mem_alKeys_alSet t x p.1 v).mp this
          rcases hp1 with h3 | h3
          · rw [h3]
            omega
          · obtain ⟨c, hc1, hc2⟩ := List.mem_map.mp h3
            have := hk c hc1
            omega
        · exact ih ht

theorem alKeys_nodup_of_ASorted {A : Type} (l : List (Int × A)) (h : ASorted l) :
    (alKeys l).Nodup := by
  rw [alKeys, List.Nodup]
  rw [List.pairwise_map]
  exact h.imp (fun hlt => ne_of_lt hlt)

theorem alKeys_alSet_of_mem {A : Type} (l : List (Int × A)) (x : Int) (v : A)
    (hs : ASorted l) (hx : x ∈ alKeys l) : alKeys (alSet l x v) = alKeys l := by
  induction l with
  | nil => simp [alKeys] at hx
  | cons hd t ih =>
    obtain ⟨k, w⟩ := hd
    rw [ASorted, List.pairwise_cons] at hs
    obtain ⟨hk, ht⟩ := hs
    rcases List.mem_cons.mp hx with h1 | h1
    · rw [alSet]
      simp only [h1, lt_irrefl, if_false, if_pos rfl, if_true]
      simp [alKeys, h1]
    · have hkx : k < x := by
        obtain ⟨c, hc1, hc2⟩ := List.mem_map.mp h1
        have := hk c hc1
        omega
      rw [alSet]
      simp only [not_lt_of_gt hkx, if_false, (ne_of_gt hkx).symm, if_false]
      have hne : ¬ x = k := by omega
      have hnl : ¬ x < k := by omega
      simp only [hnl, if_false, hne]
      simp only [alKeys, List.map_cons]
      have h4 : alKeys (alSet t x v) = alKeys t := ih ht h1
      simp only [alKeys] at h4
      rw [h4]

theorem alLookup_eq_some_iff_mem {A : Type} (l : List (Int × A)) (x : Int) (v : A)
    (hs : ASorted l) : alLookup l x = some v ↔ (x, v) ∈ l := by
  induction l with
  | nil => simp [alLookup]
  | cons hd t ih =>
    obtain ⟨k, w⟩ := hd
    rw [ASorted, List.pairwise_cons] at hs
    obtain ⟨hk, ht⟩ := hs
    by_cases h : x = k
    · subst h
      rw [alLookup]
      simp only [if_pos rfl]
      constructor
      · intro hv
        simp at hv
        simp [hv]
      · intro hv
        rcases List.mem_cons.mp hv with h1 | h1
        · simp at h1
          simp [h1]
        · have : x ∈ alKeys t := List.mem_map_of_mem Prod.fst h1
          obtain ⟨c, hc1, hc2⟩ := List.mem_map.mp this
          have := hk c hc1
          omega
    · rw [alLookup]
      simp only [h, if_false]
      rw [ih ht]
      constructor
      · exact fun h1 => List.mem_cons_of_mem _ h1
      · intro h1
        rcases List.mem_cons.mp h1 with h2 | h2
        · exact absurd (congrArg Prod.fst h2) h
        · exact h2

theorem fromCount_nil (arcs : List (Int × Int)) (x : Int) : fromCount arcs [] x = 0 := by
  simp [fromCount]

theorem filter_and_length_le {α : Type} (l : List α) (p q : α → Bool) :
    (l.filter (fun a => p a && q a)).length ≤ (l.filter p).length := by
  induction l with
  | nil => simp
  | cons a t ih =>
    by_cases hp : p a = true
    · by_cases hq : q a = true
      · simp [List.filter_cons, hp, hq]
        omega
      · simp [List.filter_cons, hp, hq]
        omega
    · simp [List.filter_cons, hp]
      exact ih

theorem filter_and_all {α : Type} (l : List α) (p q : α → Bool)
    (h : (l.filter (fun a => p a && q a)).length = (l.filter p).length) :
    ∀ a ∈ l, p a = true → q a = true := by
  induction l with
  | nil => simp
  | cons a t ih =>
    intro b hb hpb
    by_cases hp : p a = true
    · by_cases hq : q a = true
      · have h2 : (t.filter (fun a => p a && q a)).length = (t.filter p).length := by
          simp [List.filter_cons, hp, hq] at h
          omega
        rcases List.mem_cons.mp hb with h3 | h3
        · subst h3; exact hq
        · exact ih h2 b h3 hpb
      · exfalso
        have h2 := filter_and_length_le t p q
        simp [List.filter_cons, hp, hq] at h
        omega
    · rcases List.mem_cons.mp hb with h3 | h3
      · subst h3; exact absurd hpb hp
      · have h2 : (t.filter (fun a => p a && q a)).length = (t.filter p).length := by
          simpa [List.filter_cons, hp] using h
        exact ih h2 b h3 hpb

theorem filter_and_eq_of_all {α : Type} (l : List α) (p q : α → Bool)
    (h : ∀ a ∈ l, p a = true → q a = true) :
    (l.filter (fun a => p a && q a)).length = (l.filter p).length := by
  induction l with
  | nil => simp
  | cons a t ih =>
    have ht : ∀ b ∈ t, p b = true → q b = true := fun b hb => h b (List.mem_cons_of_mem a hb)
    by_cases hp : p a = true
    · have hq := h a (List.mem_cons_self a t) hp
      simp [List.filter_cons, hp, hq, ih ht]
    · simp [List.filter_cons, hp, ih ht]

theorem ASorted_alTouch {A : Type} (l : List (Int × A)) (k : Int) (v : A)
    (h : ASorted l) : ASorted (alTouch l k v) := by
  unfold alTouch
  by_cases hc : (alLookup l k).isSome = true
  · simp [hc]
    exact h
  · simp [hc]
    exact ASorted_alSet l k v h

theorem mem_arcNodes (arcs : List (Int × Int)) (x : Int) :
    x ∈ arcNodes arcs ↔ ∃ a ∈ arcs, a.1 = x ∨ a.2 = x := by
  simp only [arcNodes, List.mem_flatMap, List.mem_cons, List.mem_singleton]
  constructor
  · rintro ⟨a, ha, h⟩
    exact ⟨a, ha, by tauto⟩
  · rintro ⟨a, ha, h⟩
    exact ⟨a, ha, by tauto⟩

theorem targetCount_cons (a : Int × Int) (t : List (Int × Int)) (x : Int) :
    targetCount (a :: t) x = (if a.2 = x then 1 else 0) + targetCount t x := by
  unfold targetCount
  by_cases h : a.2 = x
  · simp [List.filter_cons, h]
    omega
  · simp [List.filter_cons, h]

theorem alLookup_degStep (d : List (Int × Int)) (a : Int × Int) (x : Int) :
    alLookup (degStep d a) x =
      if x = a.2 then some (alGetD d x 0 + 1)
      else if x = a.1 then some (alGetD d x 0)
      else alLookup d x := by
  unfold degStep alTouch alBump
  by_cases h2 : x = a.2
  · rw [if_pos h2]
    have hmx : alLookup (alSet d a.2 (alGetD d a.2 0 + 1)) x = some (alGetD d x 0 + 1) := by
      rw [h2]
      exact alLookup_alSet_self d a.2 _
    by_cases hs : (alLookup (alSet d a.2 (alGetD d a.2 0 + 1)) a.1).isSome = true
    · rw [if_pos hs]
      exact hmx
    · rw [if_neg hs]
      have hx1 : x ≠ a.1 := by
        intro he
        rw [← he, hmx] at hs
        simp at hs
      rw [alLookup_alSet_ne _ a.1 x 0 hx1]
      exact hmx
  · rw [if_neg h2]
    have hmx : alLookup (alSet d a.2 (alGetD d a.2 0 + 1)) x = alLookup d x :=
      alLookup_alSet_ne d a.2 x _ h2
    by_cases h1 : x = a.1
    · rw [if_pos h1]
      by_cases hs : (alLookup (alSet d a.2 (alGetD d a.2 0 + 1)) a.1).isSome = true
      · rw [if_pos hs]
        rw [← h1] at hs
        rw [hmx] at hs ⊢
        obtain ⟨v, hv⟩ := Option.isSome_iff_exists.mp hs
        unfold alGetD
        rw [hv]
        simp
      · rw [if_neg hs]
        rw [← h1] at hs
        rw [hmx] at hs
        have hnone : alLookup d x = none := by
          cases hl : alLookup d x with
          | none => rfl
          | some v => rw [hl] at hs; simp at hs
        rw [h1] at hnone ⊢
        rw [alLookup_alSet_self]
        unfold alGetD
        rw [hnone]
        simp
    · rw [if_neg h1]
      by_cases hs : (alLookup (alSet d a.2 (alGetD d a.2 0 + 1)) a.1).isSome = true
      · rw [if_pos hs]
        exact hmx
      · rw [if_neg hs]
        rw [alLookup_alSet_ne _ a.1 x 0 h1]
        exact hmx

theorem alLookup_foldl_degStep (arcs : List (Int × Int)) (d : List (Int × Int)) (x : Int) :
    alLookup (arcs.foldl degStep d) x =
      if x ∈ arcNodes arcs ∨ (alLookup d x).isSome = true then
        some (alGetD d x 0 + (targetCount arcs x : Int))
      else none := by
  induction arcs generalizing d with
  | nil =>
    have h0 : targetCount [] x = 0 := rfl
    cases h : alLookup d x with
    | some v => simp [arcNodes, h0, h, alGetD]
    | none => simp [arcNodes, h0, h, alGetD]
  | cons a t ih =>
    rw [List.foldl_cons, ih (degStep d a)]
    have hstep := alLookup_degStep d a x
    have hmem : (x ∈ arcNodes (a :: t)) ↔ (x = a.1 ∨ x = a.2) ∨ x ∈ arcNodes t := by
      rw [mem_arcNodes, mem_arcNodes]
      constructor
      · rintro ⟨b, hb, h⟩
        rcases List.mem_cons.mp hb with rfl | hb2
        · exact Or.inl (by tauto)
        · exact Or.inr ⟨b, hb2, h⟩
      · rintro ((h | h) | ⟨b, hb, h⟩)
        · exact ⟨a, List.mem_cons_self a t, Or.inl h.symm⟩
        · exact ⟨a, List.mem_cons_self a t, Or.inr h.symm⟩
        · exact ⟨b, List.mem_cons_of_mem a hb, h⟩
    rw [targetCount_cons]
    by_cases h2 : x = a.2
    · have hlk : alLookup (degStep d a) x = some (alGetD d x 0 + 1) := by
        rw [hstep, if_pos h2]
      have hg : alGetD (degStep d a) x 0 = alGetD d x 0 + 1 := by
        unfold alGetD; rw [hlk]; rfl
      have hc1 : (x ∈ arcNodes t ∨ (alLookup (degStep d a) x).isSome = true) := by
        rw [hlk]; simp
      have hc2 : (x ∈ arcNodes (a :: t) ∨ (alLookup d x).isSome = true) := by
        rw [hmem]; tauto
      rw [if_pos hc1, if_pos hc2, hg]
      have h2s : a.2 = x := h2.symm
      simp [h2s]
      ring
    · by_cases h1 : x = a.1
      · have hlk : alLookup (degStep d a) x = some (alGetD d x 0) := by
          rw [hstep, if_neg h2, if_pos h1]
        have hg : alGetD (degStep d a) x 0 = alGetD d x 0 := by
          unfold alGetD; rw [hlk]; rfl
        have hc1 : (x ∈ arcNodes t ∨ (alLookup (degStep d a) x).isSome = true) := by
          rw [hlk]; simp
        have hc2 : (x ∈ arcNodes (a :: t) ∨ (alLookup d x).isSome = true) := by
          rw [hmem]; tauto
        rw [if_pos hc1, if_pos hc2, hg]
        have h2s : ¬ a.2 = x := fun he => h2 he.symm
        simp [h2s]
      · have hlk : alLookup (degStep d a) x = alLookup d x := by
          rw [hstep, if_neg h2, if_neg h1]
        have hg : alGetD (degStep d a) x 0 = alGetD d x 0 := by
          unfold alGetD; rw [hlk]
        have hcond : (x ∈ arcNodes t ∨ (alLookup (degStep d a) x).isSome = true) ↔
            (x ∈ arcNodes (a :: t) ∨ (alLookup d x).isSome = true) := by
          rw [hlk, hmem]; tauto
        have h2s : ¬ a.2 = x := fun he => h2 he.symm
        by_cases hc : (x ∈ arcNodes t ∨ (alLookup d x).isSome = true)
        · rw [if_pos (by rw [hlk]; exact hc), if_pos (by rw [hmem]; tauto), hg]
          simp [h2s]
        · rw [if_neg (by rw [hlk]; exact hc), if_neg (by rw [hmem]; push_neg; push_neg at hc; tauto)]

theorem alLookup_buildDeg (arcs : List (Int × Int)) (x : Int) :
    alLookup (buildDeg arcs) x =
      if x ∈ arcNodes arcs then some ((targetCount arcs x : Int)) else none := by
  have h := alLookup_foldl_degStep arcs [] x
  rw [buildDeg] at *
  have h0 : alLookup ([] : List (Int × Int)) x = none := rfl
  rw [h0] at h
  simp only [Option.isSome_none, Bool.false_eq_true, or_false] at h
  rw [h]
  by_cases hc : x ∈ arcNodes arcs
  · simp [hc, alGetD, h0]
  · simp [hc]

theorem mem_alKeys_buildDeg (arcs : List (Int × Int)) (x : Int) :
    x ∈ alKeys (buildDeg arcs) ↔ x ∈ arcNodes arcs := by
  rw [mem_alKeys_iff_isSome, alLookup_buildDeg]
  by_cases h : x ∈ arcNodes arcs <;> simp [h]

theorem ASorted_buildDeg (arcs : List (Int × Int)) : ASorted (buildDeg arcs) := by
  have hgen : ∀ d, ASorted d → ASorted (arcs.foldl degStep d) := by
    induction arcs with
    | nil => exact fun d h => h
    | cons a t ih =>
      intro d h
      rw [List.foldl_cons]
      exact ih _ (ASorted_alTouch _ _ _ (ASorted_alSet _ _ _ h))
  exact hgen [] List.Pairwise.nil

theorem alLookup_alBump_self (d : List (Int × Int)) (dep delta : Int) :
    alLookup (alBump d dep delta) dep = some (alGetD d dep 0 + delta) :=
  alLookup_alSet_self d dep _

theorem alLookup_alBump_ne (d : List (Int × Int)) (dep delta x : Int) (h : x ≠ dep) :
    alLookup (alBump d dep delta) x = alLookup d x :=
  alLookup_alSet_ne d dep x _ h

theorem alGetD_alBump (d : List (Int × Int)) (dep x delta : Int) :
    alGetD (alBump d dep delta) x 0 =
      if x = dep then alGetD d dep 0 + delta else alGetD d x 0 := by
  by_cases h : x = dep
  · rw [if_pos h, h]
    unfold alGetD
    rw [alLookup_alBump_self]
    rfl
  · rw [if_neg h]
    unfold alGetD
    rw [alLookup_alBump_ne d dep delta x h]

theorem relaxStep_fst (d : List (Int × Int)) (zs : List Int) (dep : Int) :
    (relaxStep (d, zs) dep).1 = alBump d dep (-1) := by
  unfold relaxStep
  by_cases hc : alLookup (alBump d dep (-1)) dep = some 0 <;> simp [hc]

theorem relaxStep_eq_pos (d : List (Int × Int)) (zs : List Int) (dep : Int)
    (hc : alLookup (alBump d dep (-1)) dep = some 0) :
    relaxStep (d, zs) dep = (alBump d dep (-1), zs ++ [dep]) := by
  unfold relaxStep
  rw [if_pos hc]

theorem relaxStep_eq_neg (d : List (Int × Int)) (zs : List Int) (dep : Int)
    (hc : ¬ alLookup (alBump d dep (-1)) dep = some 0) :
    relaxStep (d, zs) dep = (alBump d dep (-1), zs) := by
  unfold relaxStep
  rw [if_neg hc]

theorem relax_foldl_fst_lookup (deps : List Int) (d : List (Int × Int)) (zs : List Int)
    (x : Int) :
    alLookup ((deps.foldl relaxStep (d, zs)).1) x =
      if x ∈ deps ∨ (alLookup d x).isSome = true then
        some (alGetD d x 0 - (deps.count x : Int))
      else none := by
  induction deps generalizing d zs with
  | nil =>
    cases h : alLookup d x with
    | some v => simp [h, alGetD]
    | none => simp [h, alGetD]
  | cons dep t ih =>
    rw [List.foldl_cons]
    have hpair : relaxStep (d, zs) dep = (alBump d dep (-1), (relaxStep (d, zs) dep).2) :=
      Prod.ext (relaxStep_fst d zs dep) rfl
    rw [hpair, ih]
    by_cases hx : x = dep
    · have hlk : alLookup (alBump d dep (-1)) x = some (alGetD d x 0 + (-1)) := by
        rw [hx]; rw [hx] at *; exact alLookup_alBump_self d dep (-1)
      have hg : alGetD (alBump d dep (-1)) x 0 = alGetD d x 0 - 1 := by
        rw [alGetD_alBump, if_pos hx, hx]; ring
      have hc1 : x ∈ t ∨ (alLookup (alBump d dep (-1)) x).isSome = true := by
        rw [hlk]; simp
      have hc2 : x ∈ dep :: t ∨ (alLookup d x).isSome = true := by
        rw [hx]; exact Or.inl (List.mem_cons_self dep t)
      rw [if_pos hc1, if_pos hc2, hg, hx, List.count_cons_self]
      simp only [Option.some.injEq]
      push_cast
      ring
    · have hlk : alLookup (alBump d dep (-1)) x = alLookup d x :=
        alLookup_alBump_ne d dep (-1) x hx
      have hg : alGetD (alBump d dep (-1)) x 0 = alGetD d x 0 := by
        rw [alGetD_alBump, if_neg hx]
      have hcnt : (dep :: t).count x = t.count x := List.count_cons_of_ne hx t
      have hcond : (x ∈ t ∨ (alLookup (alBump d dep (-1)) x).isSome = true) ↔
          (x ∈ dep :: t ∨ (alLookup d x).isSome = true) := by
        rw [hlk, List.mem_cons]
        tauto
      by_cases hc : x ∈ t ∨ (alLookup d x).isSome = true
      · rw [if_pos (by rw [hlk]; exact hc), if_pos (by rw [List.mem_cons]; tauto), hg, hcnt]
      · rw [if_neg (by rw [hlk]; exact hc), if_neg (by rw [List.mem_cons]; push_neg at hc ⊢; tauto)]

theorem relax_foldl_fst_sorted (deps : List Int) (d : List (Int × Int)) (zs : List Int)
    (h : ASorted d) : ASorted ((deps.foldl relaxStep (d, zs)).1) := by
  induction deps generalizing d zs with
  | nil => exact h
  | cons dep t ih =>
    rw [List.foldl_cons]
    have hpair : relaxStep (d, zs) dep = (alBump d dep (-1), (relaxStep (d, zs) dep).2) :=
      Prod.ext (relaxStep_fst d zs dep) rfl
    rw [hpair]
    exact ih _ _ (ASorted_alSet _ _ _ h)

theorem relax_foldl_fst_keys (deps : List Int) (d : List (Int × Int)) (zs : List Int)
    (hs : ASorted d) (hdeps : ∀ y ∈ deps, y ∈ alKeys d) :
    alKeys ((deps.foldl relaxStep (d, zs)).1) = alKeys d := by
  induction deps generalizing d zs with
  | nil => rfl
  | cons dep t ih =>
    rw [List.foldl_cons]
    have hpair : relaxStep (d, zs) dep = (alBump d dep (-1), (relaxStep (d, zs) dep).2) :=
      Prod.ext (relaxStep_fst d zs dep) rfl
    rw [hpair]
    have hkeys : alKeys (alBump d dep (-1)) = alKeys d :=
      alKeys_alSet_of_mem d dep _ hs (hdeps dep (List.mem_cons_self dep t))
    have hsorted2 : ASorted (alBump d dep (-1)) := ASorted_alSet _ _ _ hs
    have hdeps2 : ∀ y ∈ t, y ∈ alKeys (alBump d dep (-1)) := by
      intro y hy
      rw [hkeys]
      exact hdeps y (List.mem_cons_of_mem dep hy)
    rw [ih (alBump d dep (-1)) ((relaxStep (d, zs) dep).2) hsorted2 hdeps2]
    exact hkeys

theorem relax_foldl_snd_mem (deps : List Int) (d : List (Int × Int)) (zs : List Int)
    (x : Int) :
    (x ∈ (deps.foldl relaxStep (d, zs)).2) ↔
      (x ∈ zs ∨ (1 ≤ alGetD d x 0 ∧ alGetD d x 0 ≤ (deps.count x : Int))) := by
  induction deps generalizing d zs with
  | nil =>
    simp only [List.foldl_nil, List.count_nil, Nat.cast_zero]
    constructor
    · exact fun h => Or.inl h
    · rintro (h | ⟨h1, h2⟩)
      · exact h
      · omega
  | cons dep t ih =>
    rw [List.foldl_cons]
    have hbump : alLookup (alBump d dep (-1)) dep = some (alGetD d dep 0 + (-1)) :=
      alLookup_alBump_self d dep (-1)
    by_cases hc : alLookup (alBump d dep (-1)) dep = some 0
    · have hgd : alGetD d dep 0 = 1 := by
        rw [hbump] at hc
        have := Option.some_injective _ hc
        omega
      rw [relaxStep_eq_pos d zs dep hc, ih]
      by_cases hx : x = dep
      · subst hx
        have hg : alGetD (alBump d x (-1)) x 0 = 0 := by
          rw [alGetD_alBump, if_pos rfl, hgd]; ring
        rw [hg, hgd, List.count_cons_self]
        constructor
        · intro _
          right
          refine ⟨le_refl 1, ?_⟩
          push_cast
          omega
        · intro _
          exact Or.inl (List.mem_append.mpr (Or.inr (List.mem_singleton.mpr rfl)))
      · have hg : alGetD (alBump d dep (-1)) x 0 = alGetD d x 0 := by
          rw [alGetD_alBump, if_neg hx]
        have hcnt : (dep :: t).count x = t.count x := List.count_cons_of_ne hx t
        rw [hg, hcnt]
        constructor
        · rintro (h | h)
          · rcases List.mem_append.mp h with h1 | h1
            · exact Or.inl h1
            · exact absurd (List.mem_singleton.mp h1) hx
          · exact Or.inr h
        · rintro (h | h)
          · exact Or.inl (List.mem_append.mpr (Or.inl h))
          · exact Or.inr h
    · have hgd : ¬ alGetD d dep 0 = 1 := by
        intro he
        rw [hbump, he] at hc
        simp at hc
      rw [relaxStep_eq_neg d zs dep hc, ih]
      by_cases hx : x = dep
      · subst hx
        have hg : alGetD (alBump d x (-1)) x 0 = alGetD d x 0 - 1 := by
          rw [alGetD_alBump, if_pos rfl]; ring
        rw [hg, List.count_cons_self]
        push_cast
        constructor
        · rintro (h | h)
          · exact Or.inl h
          · right
            omega
        · rintro (h | h)
          · exact Or.inl h
          · right
            omega
      · have hg : alGetD (alBump d dep (-1)) x 0 = alGetD d x 0 := by
          rw [alGetD_alBump, if_neg hx]
        have hcnt : (dep :: t).count x = t.count x := List.count_cons_of_ne hx t
        rw [hg, hcnt]

theorem relax_foldl_snd_nodup (deps : List Int) (d : List (Int × Int)) (zs : List Int)
    (hzs : zs.Nodup) (hth : ∀ x ∈ zs, alGetD d x 0 ≤ 0) :
    ((deps.foldl relaxStep (d, zs)).2).Nodup := by
  induction deps generalizing d zs with
  | nil => exact hzs
  | cons dep t ih =>
    rw [List.foldl_cons]
    have hbump : alLookup (alBump d dep (-1)) dep = some (alGetD d dep 0 + (-1)) :=
      alLookup_alBump_self d dep (-1)
    by_cases hc : alLookup (alBump d dep (-1)) dep = some 0
    · have hgd : alGetD d dep 0 = 1 := by
        rw [hbump] at hc
        have := Option.some_injective _ hc
        omega
      rw [relaxStep_eq_pos d zs dep hc]
      apply ih
      · have hdep : dep ∉ zs := by
          intro hmem
          have := hth dep hmem
          omega
        simp [List.nodup_append, hzs, hdep]
      · intro x hx
        rcases List.mem_append.mp hx with h1 | h1
        · have hxd : x ≠ dep := by
            intro he
            subst he
            have := hth x h1
            omega
          rw [alGetD_alBump, if_neg hxd]
          exact hth x h1
        · have hxd : x = dep := List.mem_singleton.mp h1
          subst hxd
          rw [alGetD_alBump, if_pos rfl, hgd]
          omega
    · rw [relaxStep_eq_neg d zs dep hc]
      apply ih _ _ hzs
      intro x hx
      by_cases hxd : x = dep
      · subst hxd
        rw [alGetD_alBump, if_pos rfl]
        have := hth x hx
        omega
      · rw [alGetD_alBump, if_neg hxd]
        exact hth x hx

theorem count_adjOf (arcs : List (Int × Int)) (u x : Int) :
    (adjOf arcs u).count x = eCount arcs u x := by
  induction arcs with
  | nil => rfl
  | cons a t ih =>
    unfold adjOf eCount at ih ⊢
    rw [List.filter_cons, List.filter_cons]
    by_cases h1 : a.1 = u
    · by_cases h2 : a.2 = x
      · have hb : (a.1 == u) = true := by simp [h1]
        have hb2 : (a.1 == u && a.2 == x) = true := by simp [h1, h2]
        rw [if_pos hb, if_pos hb2, List.map_cons, List.length_cons, h2,
          List.count_cons_self, ih]
      · have hb : (a.1 == u) = true := by simp [h1]
        have hb2 : ¬ (a.1 == u && a.2 == x) = true := by simp [h1, h2]
        rw [if_pos hb, if_neg hb2, List.map_cons,
          List.count_cons_of_ne (fun he => h2 he.symm), ih]
    · have hb : ¬ (a.1 == u) = true := by simp [h1]
      have hb2 : ¬ (a.1 == u && a.2 == x) = true := by simp [h1]
      rw [if_neg hb, if_neg hb2, ih]

theorem fromCount_append_single (arcs : List (Int × Int)) (acc : List Int) (c x : Int)
    (hc : c ∉ acc) :
    fromCount arcs (acc ++ [c]) x = fromCount arcs acc x + eCount arcs c x := by
  unfold fromCount eCount
  induction arcs with
  | nil => rfl
  | cons a t ih =>
    rw [List.filter_cons, List.filter_cons, List.filter_cons]
    by_cases h2 : a.2 = x
    · by_cases hmem : a.1 ∈ acc
      · have hb1 : (a.2 == x && (acc ++ [c]).contains a.1) = true := by simp [h2, hmem]
        have hb2 : (a.2 == x && acc.contains a.1) = true := by simp [h2, hmem]
        have hb3 : ¬ (a.1 == c && a.2 == x) = true := by
          simp [h2]
          intro he
          exact hc (he ▸ hmem)
        rw [if_pos hb1, if_pos hb2, if_neg hb3, List.length_cons, List.length_cons]
        omega
      · by_cases heq : a.1 = c
        · have hb1 : (a.2 == x && (acc ++ [c]).contains a.1) = true := by
            simp [h2, heq]
          have hb2 : ¬ (a.2 == x && acc.contains a.1) = true := by simp [h2, hmem]
          have hb3 : (a.1 == c && a.2 == x) = true := by simp [h2, heq]
          rw [if_pos hb1, if_neg hb2, if_pos hb3, List.length_cons, List.length_cons]
          omega
        · have hb1 : ¬ (a.2 == x && (acc ++ [c]).contains a.1) = true := by
            simp [h2, hmem, heq]
          have hb2 : ¬ (a.2 == x && acc.contains a.1) = true := by simp [h2, hmem]
          have hb3 : ¬ (a.1 == c && a.2 == x) = true := by simp [heq]
          rw [if_neg hb1, if_neg hb2, if_neg hb3, ih]
    · have hb1 : ¬ (a.2 == x && (acc ++ [c]).contains a.1) = true := by simp [h2]
      have hb2 : ¬ (a.2 == x && acc.contains a.1) = true := by simp [h2]
      have hb3 : ¬ (a.1 == c && a.2 == x) = true := by simp [h2]
      rw [if_neg hb1, if_neg hb2, if_neg hb3, ih]

theorem fromCount_le_targetCount (arcs : List (Int × Int)) (s : List Int) (x : Int) :
    fromCount arcs s x ≤ targetCount arcs x :=
  filter_and_length_le arcs (fun a => a.2 == x) (fun a => s.contains a.1)

theorem eCount_pos_iff (arcs : List (Int × Int)) (c x : Int) :
    0 < eCount arcs c x ↔ (c, x) ∈ arcs := by
  unfold eCount
  rw [List.length_pos_iff_exists_mem]
  constructor
  · rintro ⟨a, ha⟩
    rw [List.mem_filter] at ha
    obtain ⟨ha1, ha2⟩ := ha
    have h1 : a.1 = c ∧ a.2 = x := by simpa using ha2
    have h2 : a = (c, x) := Prod.ext h1.1 h1.2
    rw [← h2]
    exact ha1
  · intro h
    refine ⟨(c, x), ?_⟩
    rw [List.mem_filter]
    exact ⟨h, by simp⟩

theorem exists_arc_not_from (arcs : List (Int × Int)) (s : List Int) (x : Int)
    (h : fromCount arcs s x ≠ targetCount arcs x) :
    ∃ a ∈ arcs, a.2 = x ∧ a.1 ∉ s := by
  by_contra hA
  push_neg at hA
  apply h
  unfold fromCount targetCount
  exact filter_and_eq_of_all arcs (fun a => a.2 == x) (fun a => s.contains a.1)
    (fun a ha hp => by
      have h2 : a.2 = x := by simpa using hp
      have h3 := hA a ha h2
      simpa using h3)

theorem all_from_of_fromCount_eq (arcs : List (Int × Int)) (s : List Int) (x : Int)
    (h : fromCount arcs s x = targetCount arcs x) :
    ∀ a ∈ arcs, a.2 = x → a.1 ∈ s := by
  intro a ha h2
  unfold fromCount targetCount at h
  have h3 := filter_and_all arcs (fun a => a.2 == x) (fun a => s.contains a.1) h a ha
    (by simpa using h2)
  simpa using h3

theorem mem_adjOf (arcs : List (Int × Int)) (u x : Int) :
    x ∈ adjOf arcs u ↔ (u, x) ∈ arcs := by
  unfold adjOf
  rw [List.mem_map]
  constructor
  · rintro ⟨a, ha, rfl⟩
    rw [List.mem_filter] at ha
    have h1 : a.1 = u := by simpa using ha.2
    have h2 : a = (u, a.2) := Prod.ext h1 rfl
    rw [← h2]
    exact ha.1
  · intro h
    exact ⟨(u, x), List.mem_filter.mpr ⟨h, by simp⟩, rfl⟩

theorem arc_fst_mem_arcNodes (arcs : List (Int × Int)) (a : Int × Int) (ha : a ∈ arcs) :
    a.1 ∈ arcNodes arcs :=
  (mem_arcNodes arcs a.1).mpr ⟨a, ha, Or.inl rfl⟩

theorem arc_snd_mem_arcNodes (arcs : List (Int × Int)) (a : Int × Int) (ha : a ∈ arcs) :
    a.2 ∈ arcNodes arcs :=
  (mem_arcNodes arcs a.2).mpr ⟨a, ha, Or.inr rfl⟩

theorem kahnInv_step (arcs : List (Int × Int)) (c : Int) (q : List Int)
    (d : List (Int × Int)) (acc : List Int)
    (hinv : KahnInv arcs (c :: q) d acc) :
    KahnInv arcs (q ++ ((adjOf arcs c).foldl relaxStep (d, [])).2)
      ((adjOf arcs c).foldl relaxStep (d, [])).1 (acc ++ [c]) := by
  obtain ⟨hsorted, hkeys, haccN, hqN, hdisj, haccR, hqR, hval, hzero, hsound⟩ := hinv
  set deps := adjOf arcs c with hdeps_def
  set res := deps.foldl relaxStep (d, []) with hres_def
  have hcR : c ∈ arcNodes arcs := hqR c (List.mem_cons_self c q)
  have hcnacc : c ∉ acc := fun hmem => hdisj c hmem (List.mem_cons_self c q)
  have hqtail : c ∉ q ∧ q.Nodup := List.nodup_cons.mp hqN
  have hzc : fromCount arcs acc c = targetCount arcs c :=
    (hzero c hcR).mp (Or.inr (List.mem_cons_self c q))
  have hall_c : ∀ a ∈ arcs, a.2 = c → a.1 ∈ acc := all_from_of_fromCount_eq arcs acc c hzc
  have hec : eCount arcs c c = 0 := by
    by_contra hne
    have hpos : 0 < eCount arcs c c := Nat.pos_of_ne_zero hne
    have hmem : (c, c) ∈ arcs := (eCount_pos_iff arcs c c).mp hpos
    exact hcnacc (hall_c (c, c) hmem rfl)
  have hdepsR : ∀ y ∈ deps, y ∈ arcNodes arcs := by
    intro y hy
    exact arc_snd_mem_arcNodes arcs (c, y) ((mem_adjOf arcs c y).mp hy)
  have hdepsK : ∀ y ∈ deps, y ∈ alKeys d := fun y hy => (hkeys y).mpr (hdepsR y hy)
  have hfc : ∀ x, fromCount arcs (acc ++ [c]) x = fromCount arcs acc x + eCount arcs c x :=
    fun x => fromCount_append_single arcs acc c x hcnacc
  have hgd : ∀ x ∈ arcNodes arcs,
      alGetD d x 0 = (targetCount arcs x : Int) - (fromCount arcs acc x : Int) := by
    intro x hx
    unfold alGetD
    rw [hval x hx]
    rfl
  have hcount : ∀ x, deps.count x = eCount arcs c x := fun x => count_adjOf arcs c x
  have hzs : ∀ x, x ∈ res.2 ↔
      (1 ≤ alGetD d x 0 ∧ alGetD d x 0 ≤ (deps.count x : Int)) := by
    intro x
    rw [hres_def, relax_foldl_snd_mem]
    simp
  have hzsR : ∀ x ∈ res.2, x ∈ arcNodes arcs := by
    intro x hx
    obtain ⟨h1, h2⟩ := (hzs x).mp hx
    have hcp : 0 < deps.count x := by omega
    exact hdepsR x (List.count_pos_iff.mp hcp)
  have hzs_not : ∀ x ∈ res.2, x ∉ acc ∧ x ∉ c :: q := by
    intro x hx
    obtain ⟨h1, h2⟩ := (hzs x).mp hx
    have hxR : x ∈ arcNodes arcs := hzsR x hx
    have hv := hgd x hxR
    rw [hv] at h1
    constructor
    · intro hmem
      have h3 := (hzero x hxR).mp (Or.inl hmem)
      have h4 := fromCount_le_targetCount arcs acc x
      omega
    · intro hmem
      have h3 := (hzero x hxR).mp (Or.inr hmem)
      omega
  have hkeys2 : alKeys res.1 = alKeys d :=
    relax_foldl_fst_keys deps d [] hsorted hdepsK
  have hzsN : res.2.Nodup :=
    relax_foldl_snd_nodup deps d [] List.nodup_nil (by intro x hx; simp at hx)
  refine ⟨?_, ?_, ?_, ?_, ?_, ?_, ?_, ?_, ?_, ?_⟩
  · exact relax_foldl_fst_sorted deps d [] hsorted
  · intro x
    rw [hkeys2]
    exact hkeys x
  · rw [List.nodup_append]
    refine ⟨haccN, List.nodup_singleton c, ?_⟩
    intro a ha hb
    rw [List.mem_singleton] at hb
    exact hcnacc (hb ▸ ha)
  · rw [List.nodup_append]
    refine ⟨hqtail.2, hzsN, ?_⟩
    intro a ha hb
    exact (hzs_not a hb).2 (List.mem_cons_of_mem c ha)
  · intro x hx hq
    rcases List.mem_append.mp hx with h1 | h1
    · rcases List.mem_append.mp hq with h2 | h2
      · exact hdisj x h1 (List.mem_cons_of_mem c h2)
      · exact (hzs_not x h2).1 h1
    · rw [List.mem_singleton] at h1
      subst h1
      rcases List.mem_append.mp hq with h2 | h2
      · exact hqtail.1 h2
      · exact (hzs_not x h2).2 (List.mem_cons_self x q)
  · intro x hx
    rcases List.mem_append.mp hx with h1 | h1
    · exact haccR x h1
    · rw [List.mem_singleton] at h1
      exact h1 ▸ hcR
  · intro x hx
    rcases List.mem_append.mp hx with h1 | h1
    · exact hqR x (List.mem_cons_of_mem c h1)
    · exact hzsR x h1
  · intro x hx
    rw [hres_def, relax_foldl_fst_lookup]
    have hcond : x ∈ deps ∨ (alLookup d x).isSome = true := by
      right
      rw [hval x hx]
      rfl
    rw [if_pos hcond, hgd x hx, hfc x, hcount x]
    simp only [Option.some.injEq]
    push_cast
    ring
  · intro x hx
    rw [hfc x]
    by_cases hxc : x = c
    · subst hxc
      have hL : x ∈ acc ++ [x] ∨ x ∈ q ++ res.2 :=
        Or.inl (List.mem_append.mpr (Or.inr (List.mem_singleton.mpr rfl)))
      rw [iff_true_intro hL, true_iff, hzc, hec]
      omega
    · constructor
      · intro hL
        have hsplit : x ∈ acc ∨ x ∈ q ∨ x ∈ res.2 := by
          rcases hL with h1 | h1
          · rcases List.mem_append.mp h1 with h2 | h2
            · exact Or.inl h2
            · exact absurd (List.mem_singleton.mp h2) hxc
          · rcases List.mem_append.mp h1 with h2 | h2
            · exact Or.inr (Or.inl h2)
            · exact Or.inr (Or.inr h2)
        have he0 : x ∈ acc ∨ x ∈ q → eCount arcs c x = 0 := by
          intro hm
          have hfe : fromCount arcs acc x = targetCount arcs x := by
            rcases hm with hm | hm
            · exact (hzero x hx).mp (Or.inl hm)
            · exact (hzero x hx).mp (Or.inr (List.mem_cons_of_mem c hm))
          by_contra hne
          have hpos : 0 < eCount arcs c x := Nat.pos_of_ne_zero hne
          have hmem : (c, x) ∈ arcs := (eCount_pos_iff arcs c x).mp hpos
          exact hcnacc (all_from_of_fromCount_eq arcs acc x hfe (c, x) hmem rfl)
        rcases hsplit with hm | hm | hm
        · have := he0 (Or.inl hm)
          have hfe := (hzero x hx).mp (Or.inl hm)
          omega
        · have := he0 (Or.inr hm)
          have hfe := (hzero x hx).mp (Or.inr (List.mem_cons_of_mem c hm))
          omega
        · obtain ⟨h1, h2⟩ := (hzs x).mp hm
          rw [hgd x hx] at h1 h2
          rw [hcount x] at h2
          have hle : fromCount arcs (acc ++ [c]) x ≤ targetCount arcs x :=
            fromCount_le_targetCount arcs (acc ++ [c]) x
          rw [hfc x] at hle
          omega
      · intro hR
        by_cases he : eCount arcs c x = 0
        · have hfe : fromCount arcs acc x = targetCount arcs x := by omega
          have hm := (hzero x hx).mpr hfe
          rcases hm with hm | hm
          · exact Or.inl (List.mem_append.mpr (Or.inl hm))
          · rcases List.mem_cons.mp hm with hm2 | hm2
            · exact absurd hm2 hxc
            · exact Or.inr (List.mem_append.mpr (Or.inl hm2))
        · have hmem : x ∈ res.2 := by
            rw [hzs x, hgd x hx, hcount x]
            have h4 := fromCount_le_targetCount arcs acc x
            constructor
            · omega
            · omega
          exact Or.inr (List.mem_append.mpr (Or.inr hmem))
  · intro a ha h2
    rcases List.mem_append.mp h2 with hm | hm
    · obtain ⟨h1, hlt⟩ := hsound a ha hm
      refine ⟨List.mem_append.mpr (Or.inl h1), ?_⟩
      rw [List.indexOf_append_of_mem h1, List.indexOf_append_of_mem hm]
      exact hlt
    · rw [List.mem_singleton] at hm
      have h1 : a.1 ∈ acc := hall_c a ha hm
      refine ⟨List.mem_append.mpr (Or.inl h1), ?_⟩
      rw [List.indexOf_append_of_mem h1, hm, List.indexOf_append_of_not_mem hcnacc,
        List.indexOf_cons_self]
      have := List.indexOf_lt_length.mpr h1
      omega

theorem seeds_mem_iff (arcs : List (Int × Int)) (x : Int) :
    x ∈ ((buildDeg arcs).filter (fun p => p.2 == 0)).map (fun p => p.1) ↔
      alLookup (buildDeg arcs) x = some 0 := by
  have hsorted := ASorted_buildDeg arcs
  rw [List.mem_map]
  constructor
  · rintro ⟨p, hp, rfl⟩
    rw [List.mem_filter] at hp
    have hz : p.2 = 0 := by simpa using hp.2
    rw [alLookup_eq_some_iff_mem _ _ _ hsorted, ← hz]
    exact hp.1
  · intro h
    refine ⟨(x, 0), ?_, rfl⟩
    rw [List.mem_filter]
    exact ⟨(alLookup_eq_some_iff_mem _ _ _ hsorted).mp h, by simp⟩

theorem kahnInv_init (arcs : List (Int × Int)) :
    KahnInv arcs (((buildDeg arcs).filter (fun p => p.2 == 0)).map (fun p => p.1))
      (buildDeg arcs) [] := by
  have hsorted := ASorted_buildDeg arcs
  have hseedR : ∀ x, x ∈ ((buildDeg arcs).filter (fun p => p.2 == 0)).map (fun p => p.1) →
      x ∈ arcNodes arcs := by
    intro x hx
    rw [seeds_mem_iff] at hx
    rw [← mem_alKeys_buildDeg, mem_alKeys_iff_isSome, hx]
    rfl
  refine ⟨hsorted, mem_alKeys_buildDeg arcs, List.nodup_nil, ?_, ?_, ?_, hseedR, ?_, ?_, ?_⟩
  · have hsub : List.Sublist
        (((buildDeg arcs).filter (fun p => p.2 == 0)).map (fun p => p.1))
        (alKeys (buildDeg arcs)) :=
      List.Sublist.map Prod.fst ((buildDeg arcs).filter_sublist)
    exact List.Nodup.sublist hsub (alKeys_nodup_of_ASorted _ hsorted)
  · intro x hx
    simp at hx
  · intro x hx
    simp at hx
  · intro x hx
    rw [alLookup_buildDeg, if_pos hx, fromCount_nil]
    simp
  · intro x hx
    rw [fromCount_nil]
    have h1 : (x ∈ ([] : List Int) ∨
        x ∈ ((buildDeg arcs).filter (fun p => p.2 == 0)).map (fun p => p.1)) ↔
        x ∈ ((buildDeg arcs).filter (fun p => p.2 == 0)).map (fun p => p.1) := by
      simp
    rw [h1, seeds_mem_iff, alLookup_buildDeg, if_pos hx]
    constructor
    · intro h
      have h2 : (targetCount arcs x : Int) = 0 := Option.some_injective _ h
      omega
    · intro h
      rw [← h]
      rfl
  · intro a ha h2
    simp at h2

theorem kahnLoop_post (arcs : List (Int × Int)) (fuel : Nat) (q : List Int)
    (d : List (Int × Int)) (acc : List Int)
    (hinv : KahnInv arcs q d acc)
    (hfuel : d.length - acc.length < fuel) :
    KahnInv arcs [] (kahnLoop (adjOf arcs) fuel q d acc).2
      (kahnLoop (adjOf arcs) fuel q d acc).1 := by
  induction fuel generalizing q d acc with
  | zero => omega
  | succ n ih =>
    cases q with
    | nil =>
      simp only [kahnLoop]
      exact hinv
    | cons c qt =>
      simp only [kahnLoop]
      have hstep := kahnInv_step arcs c qt d acc hinv
      have hkeq : ((adjOf arcs c).foldl relaxStep (d, [])).1.length = d.length := by
        have hdepsK : ∀ y ∈ adjOf arcs c, y ∈ alKeys d := by
          intro y hy
          exact (hinv.keys y).mpr
            (arc_snd_mem_arcNodes arcs (c, y) ((mem_adjOf arcs c y).mp hy))
        have h1 : alKeys ((adjOf arcs c).foldl relaxStep (d, [])).1 = alKeys d :=
          relax_foldl_fst_keys _ d [] hinv.sorted hdepsK
        have h2 := congrArg List.length h1
        simpa [alKeys] using h2
      have hlen : acc.length + 1 ≤ d.length := by
        have hsub : (acc ++ [c]) ⊆ alKeys d := by
          intro y hy
          rcases List.mem_append.mp hy with h1 | h1
          · exact (hinv.keys y).mpr (hinv.accR y h1)
          · rw [List.mem_singleton] at h1
            rw [h1]
            exact (hinv.keys c).mpr (hinv.qR c (List.mem_cons_self c qt))
        have hsp := List.subperm_of_subset hstep.accN hsub
        have h3 := hsp.length_le
        have hkl : (alKeys d).length = d.length := by simp [alKeys]
        rw [List.length_append, List.length_singleton, hkl] at h3
        omega
      exact ih _ _ _ hstep
        (by rw [hkeq, List.length_append, List.length_singleton]; omega)

theorem kahnInv_complete_of_length (arcs : List (Int × Int)) (dfin : List (Int × Int))
    (ord : List Int) (hpost : KahnInv arcs [] dfin ord)
    (hlen : ord.length = dfin.length) : ∀ x ∈ arcNodes arcs, x ∈ ord := by
  have hksub : ord ⊆ alKeys dfin := fun y hy => (hpost.keys y).mpr (hpost.accR y hy)
  have hsp := List.subperm_of_subset hpost.accN hksub
  have hkl : (alKeys dfin).length = dfin.length := by simp [alKeys]
  have hperm := hsp.perm_of_length_le (by rw [hkl, ← hlen])
  intro x hx
  exact hperm.mem_iff.mpr ((hpost.keys x).mpr hx)

theorem kahnInv_idx_mono (arcs : List (Int × Int)) (dfin : List (Int × Int))
    (ord : List Int) (hpost : KahnInv arcs [] dfin ord)
    (hall : ∀ x ∈ arcNodes arcs, x ∈ ord) :
    ∀ u v, Relation.TransGen (arcStep arcs) u v → ord.indexOf u < ord.indexOf v := by
  intro u v h
  induction h with
  | single hs =>
    have hsnd := (hpost.sound _ hs (hall _ (arc_snd_mem_arcNodes arcs _ hs))).2
    exact hsnd
  | tail hab hbc ih =>
    have hsnd := (hpost.sound _ hbc (hall _ (arc_snd_mem_arcNodes arcs _ hbc))).2
    exact lt_trans ih hsnd

theorem stuck_set_cycle (arcs : List (Int × Int)) (bad : Finset Int)
    (hne : bad.Nonempty) (hstep : ∀ x ∈ bad, ∃ u ∈ bad, (u, x) ∈ arcs) :
    ∃ x, Relation.TransGen (arcStep arcs) x x := by
  classical
  obtain ⟨x0, hx0⟩ := hne
  have hstep2 : ∀ y : {z // z ∈ bad}, ∃ u : {z // z ∈ bad}, arcStep arcs u.1 y.1 := by
    intro y
    obtain ⟨u, hu, harc⟩ := hstep y.1 y.2
    exact ⟨⟨u, hu⟩, harc⟩
  choose g hg using hstep2
  have hchain : ∀ (k : Nat) (y : {z // z ∈ bad}),
      Relation.TransGen (arcStep arcs) (g^[k + 1] y).1 y.1 := by
    intro k
    induction k with
    | zero =>
      intro y
      rw [Function.iterate_one]
      exact Relation.TransGen.single (hg y)
    | succ m ihm =>
      intro y
      have h1 : g^[m + 1 + 1] y = g^[m + 1] (g y) := Function.iterate_succ_apply g (m + 1) y
      rw [h1]
      exact Relation.TransGen.trans (ihm (g y)) (Relation.TransGen.single (hg y))
  have key : ∀ i j : Nat, i < j → g^[i] ⟨x0, hx0⟩ = g^[j] ⟨x0, hx0⟩ →
      ∃ x, Relation.TransGen (arcStep arcs) x x := by
    intro i j hij heq
    refine ⟨(g^[i] ⟨x0, hx0⟩).1, ?_⟩
    obtain ⟨k0, hk0⟩ : ∃ k0, j = k0 + 1 + i := ⟨j - i - 1, by omega⟩
    have h2 : g^[j] ⟨x0, hx0⟩ = g^[k0 + 1] (g^[i] ⟨x0, hx0⟩) := by
      rw [hk0, Function.iterate_add_apply]
    have h3 := hchain k0 (g^[i] ⟨x0, hx0⟩)
    rw [← h2, ← heq] at h3
    exact h3
  obtain ⟨i, j, hij, heq⟩ :=
    Finite.exists_ne_map_eq_of_infinite (fun n : Nat => g^[n] ⟨x0, hx0⟩)
  rcases lt_or_gt_of_ne hij with h | h
  · exact key i j h heq
  · exact key j i h heq.symm

theorem kahnInv_all_of_acyclic (arcs : List (Int × Int)) (dfin : List (Int × Int))
    (ord : List Int) (hpost : KahnInv arcs [] dfin ord)
    (hacyc : ∀ x, ¬ Relation.TransGen (arcStep arcs) x x) :
    ∀ x ∈ arcNodes arcs, x ∈ ord := by
  classical
  by_contra hA
  push_neg at hA
  obtain ⟨x0, hx0R, hx0⟩ := hA
  have hstepb : ∀ x ∈ (arcNodes arcs).toFinset.filter (fun y => y ∉ ord),
      ∃ u ∈ (arcNodes arcs).toFinset.filter (fun y => y ∉ ord), (u, x) ∈ arcs := by
    intro x hx
    rw [Finset.mem_filter, List.mem_toFinset] at hx
    obtain ⟨hxR, hxord⟩ := hx
    have hne2 : fromCount arcs ord x ≠ targetCount arcs x := by
      intro he
      rcases (hpost.zero x hxR).mpr he with h | h
      · exact hxord h
      · simp at h
    obtain ⟨a, ha, ha2, ha1⟩ := exists_arc_not_from arcs ord x hne2
    refine ⟨a.1, ?_, ?_⟩
    · rw [Finset.mem_filter, List.mem_toFinset]
      exact ⟨arc_fst_mem_arcNodes arcs a ha, ha1⟩
    · have hae : a = (a.1, x) := Prod.ext rfl ha2
      rw [← hae]
      exact ha
  have hne0 : ((arcNodes arcs).toFinset.filter (fun y => y ∉ ord)).Nonempty := by
    refine ⟨x0, ?_⟩
    rw [Finset.mem_filter, List.mem_toFinset]
    exact ⟨hx0R, hx0⟩
  obtain ⟨x, hx⟩ := stuck_set_cycle arcs _ hne0 hstepb
  exact hacyc x hx

theorem topologicalSort_eq (nodes : List NodeData) (rels : List RelationshipData) :
    topologicalSort nodes rels =
      if (kahnLoop (adjOf (buildArcs nodes rels))
            ((buildDeg (buildArcs nodes rels)).length + 1)
            (((buildDeg (buildArcs nodes rels)).filter (fun p => p.2 == 0)).map
              (fun p => p.1))
            (buildDeg (buildArcs nodes rels)) []).1.length ≠
          (kahnLoop (adjOf (buildArcs nodes rels))
            ((buildDeg (buildArcs nodes rels)).length + 1)
            (((buildDeg (buildArcs nodes rels)).filter (fun p => p.2 == 0)).map
              (fun p => p.1))
            (buildDeg (buildArcs nodes rels)) []).2.length then []
      else (kahnLoop (adjOf (buildArcs nodes rels))
            ((buildDeg (buildArcs nodes rels)).length + 1)
            (((buildDeg (buildArcs nodes rels)).filter (fun p => p.2 == 0)).map
              (fun p => p.1))
            (buildDeg (buildArcs nodes rels)) []).1 := rfl

theorem foldl_alSet_lookup {B : Type} (l : List B) (f : B → Int) (nid : Int)
    (m : List (Int × Int)) (k : Int) :
    alLookup (l.foldl (fun m b => alSet m (f b) nid) m) k =
      if k ∈ l.map f then some nid else alLookup m k := by
  induction l generalizing m with
  | nil => simp
  | cons b t ih =>
    rw [List.foldl_cons, ih]
    by_cases hk : k ∈ t.map f
    · rw [if_pos hk, if_pos (by rw [List.map_cons]; exact List.mem_cons_of_mem _ hk)]
    · rw [if_neg hk]
      by_cases he : k = f b
      · rw [he, alLookup_alSet_self,
          if_pos (by rw [List.map_cons]; exact List.mem_cons_self _ _)]
      · rw [alLookup_alSet_ne m (f b) k nid he, if_neg ?hne]
        intro hmem
        rw [List.map_cons] at hmem
        rcases List.mem_cons.mp hmem with h | h
        · exact he h
        · exact hk h

theorem connStepNode_lookup (m : List (Int × Int)) (n : NodeData) (k : Int) :
    alLookup (connStepNode m n) k =
      if k ∈ nodePortIds n then some n.id else alLookup m k := by
  unfold connStepNode nodePortIds
  rw [foldl_alSet_lookup, foldl_alSet_lookup]
  by_cases ho : k ∈ n.outputs.map (fun o => o.id)
  · rw [if_pos ho, if_pos (List.mem_append.mpr (Or.inr ho))]
  · rw [if_neg ho]
    by_cases hi : k ∈ n.inputs.map (fun i => i.id)
    · rw [if_pos hi, if_pos (List.mem_append.mpr (Or.inl hi))]
    · rw [if_neg hi, if_neg ?hni]
      intro hm
      rcases List.mem_append.mp hm with h | h
      · exact hi h
      · exact ho h

theorem portIdsSeq_cons (n : NodeData) (t : List NodeData) :
    portIdsSeq (n :: t) = nodePortIds n ++ portIdsSeq t := by
  unfold portIdsSeq
  rw [List.flatMap_cons]

theorem connMap_fold_unchanged (t : List NodeData) (m : List (Int × Int)) (k : Int)
    (h : k ∉ portIdsSeq t) : alLookup (t.foldl connStepNode m) k = alLookup m k := by
  induction t generalizing m with
  | nil => rfl
  | cons n t1 ih =>
    rw [portIdsSeq_cons] at h
    rw [List.foldl_cons,
      ih (connStepNode m n) (fun hk => h (List.mem_append.mpr (Or.inr hk))),
      connStepNode_lookup, if_neg (fun hk => h (List.mem_append.mpr (Or.inl hk)))]

theorem connMap_owner_aux (nodes : List NodeData) :
    ∀ (m : List (Int × Int)), (portIdsSeq nodes).Nodup →
      ∀ n ∈ nodes, ∀ k ∈ nodePortIds n,
        alLookup (nodes.foldl connStepNode m) k = some n.id := by
  induction nodes with
  | nil =>
    intro m _ n hn
    simp at hn
  | cons n0 t ih =>
    intro m hnd n hn k hk
    rw [portIdsSeq_cons, List.nodup_append] at hnd
    obtain ⟨hnd0, hndt, hdisj⟩ := hnd
    rw [List.foldl_cons]
    rcases List.mem_cons.mp hn with heq | hn2
    · subst heq
      have hkt : k ∉ portIdsSeq t := fun hkt => hdisj hk hkt
      rw [connMap_fold_unchanged t _ k hkt, connStepNode_lookup, if_pos hk]
    · exact ih (connStepNode m n0) hndt n hn2 k hk

theorem portToNode_owner (nodes : List NodeData) (hports : (portIdsSeq nodes).Nodup)
    (n : NodeData) (hn : n ∈ nodes) (k : Int) (hk : k ∈ nodePortIds n) :
    portToNode nodes k = n.id := by
  unfold portToNode alGetD connMap
  rw [connMap_owner_aux nodes [] hports n hn k hk]
  rfl

theorem findNodeIdxGo_none (t : List NodeData) (x : Int) (i : Nat)
    (h : ∀ n ∈ t, n.id ≠ x) : findNodeIdxGo t x i = none := by
  induction t generalizing i with
  | nil => simp [findNodeIdxGo]
  | cons n t ih =>
    have hn : n.id ≠ x := h n (by simp)
    simp [findNodeIdxGo, hn]
    exact ih _ (fun m hm => h m (by simp [hm]))

/-- A rank function strictly increasing along a relation rules out
cycles of its transitive closure. -/
theorem no_cycle_of_rank {A : Int → Int → Prop} (f : Int → Int)
    (hmono : ∀ u v, A u v → f u < f v) : ∀ x, ¬ Relation.TransGen A x x := by
  have key : ∀ u v, Relation.TransGen A u v → f u < f v := by
    intro u v h
    induction h with
    | single h => exact hmono _ _ h
    | tail _ h2 ih => exact lt_trans ih (hmono _ _ h2)
  intro x hx
  exact lt_irrefl _ (key x x hx)

/-! ## Claim C1 -/

/-- C1, counterexample: with no prior pending or trigger state, the very
first terminal decision (true at t=0) immediately invokes the callback,
so the callback does not fire zero times during the claimed sequence. -/
theorem C1_counterexample :
    (processDeviceChange 10000 initDebSt 1 0 true).2 = some true := by decide

/-- C1 (amended): delivering true at t=0 fires the callback once
immediately (first observation, no debounce window yet); the flips at
t=2000 and t=4000 are suppressed as oscillation and restart the window;
the tick at t=15000 then invokes the callback once with the pending
value true (the sweep erases the entry and subsequently increments the
invalidated iterator, so the invocation list is the defined behavior of
the tick). -/
theorem C1_amended_scenario :
    (processDeviceChange 10000 initDebSt 1 0 true).2 = some true ∧
    (processDeviceChange 10000 c1AfterT0 1 2000 false).2 = none ∧
    (processDeviceChange 10000 c1AfterT2000 1 4000 true).2 = none ∧
    (processPendingChanges 10000 c1AfterT4000 15000).1 = [(1, true)] := by decide

/-! ## Claim C2 -/

/-- C2, counterexample: in the diamond graph, one updateDeviceValues
pass computes node 1 five times (the per-call memo tables are fresh for
every evaluateNodeInput call, and within a call the guard compares the
node id against keys that are output port ids), and even the single
call targeting node 4 computes node 1 twice. -/
theorem C2_counterexample :
    (devicePass dummyPrims [] 50 7 diamondNodes diamondRels).map
      (fun r => r.2.2.count 1) = some 5 ∧
    (evaluateNodeInput dummyPrims [] 50 diamondNodes diamondRels 4).map
      (fun r => r.2.trace) = some [4, 2, 1, 3, 1] := by decide

/-- C2 (amended): the memo guard of calculateNodeValues skips a node
exactly when the node id is already a key of the per-call memo table
(whose keys are output port ids); since each evaluateNodeInput call
starts from an empty table, a node may be recomputed several times in
one pass, deterministically. -/
theorem C2_amended_memo_guard (p : Prims) (devVals : List (Int × String))
    (rels : List RelationshipData) (fuel : Nat) (st : EvalSt) (nodeId : Int)
    (hmem : (alLookup st.memo nodeId).isSome = true) (hfuel : 0 < fuel) :
    calcNode p devVals rels fuel st nodeId = some st := by
  cases fuel with
  | zero => exact absurd hfuel (lt_irrefl 0)
  | succ m => simp [calcNode, hmem]

/-- C2, witness for the amended theorem at a concrete state whose memo
already holds the node id as a key. -/
theorem C2_witness :
    calcNode dummyPrims [] [] 3 ⟨[], [(1, "x")], [], []⟩ 1 = some ⟨[], [(1, "x")], [], []⟩ :=
  C2_amended_memo_guard dummyPrims [] [] 3 ⟨[], [(1, "x")], [], []⟩ 1 (by decide) (by decide)

/-! ## Claim C3 -/

/-- C3, failing input: on the string " true" (leading space) the inline
logic-gate coercion yields false (no trimming: the literal comparison
fails and std::stod cannot parse it) while convertToBool trims first and
yields true — the two coercions are not extensionally equal. -/
theorem C3_counterexample :
    gateCoerce " true" = false ∧ convertToBool " true" = true := by decide

/-- C3 (amended): the logic-gate coercion agrees with convertToBool on
every string that the trim of convertToBool leaves unchanged (no
leading or trailing space, tab, newline or carriage return). -/
theorem C3_amended_agreement (s : String) (h : trimWS s = s) :
    gateCoerce s = convertToBool s := by
  unfold convertToBool gateCoerce
  rw [h]

/-- C3, witness for the amended theorem at the trim-invariant string "5". -/
theorem C3_witness : trimWS "5" = "5" ∧ gateCoerce "5" = convertToBool "5" :=
  ⟨by decide, C3_amended_agreement "5" (by decide)⟩

/-! ## Claim C4 -/

/-- C4: when the target node id resolves to no node of the device graph,
evaluateNodeInput has no defined result at all: line 455 short-circuits
on the null target pointer but line 460 dereferences it
(targetNode->outputs), which is undefined behavior, not the
coercion-of-default false result the claim states. -/
theorem C4_missing_target_ub (p : Prims) (devVals : List (Int × String)) (fuel : Nat)
    (nodes : List NodeData) (rels : List RelationshipData) (tid : Int)
    (habs : ∀ n ∈ nodes, n.id ≠ tid) :
    evaluateNodeInput p devVals fuel nodes rels tid = none := by
  have hfind : nodes.find? (fun n => n.id == tid) = none := by
    rw [List.find?_eq_none]
    intro n hn
    simpa using habs n hn
  cases fuel with
  | zero => simp [evaluateNodeInput, calcNode]
  | succ m =>
    have hidx : findNodeIdx nodes tid = none := findNodeIdxGo_none nodes tid 0 habs
    simp [evaluateNodeInput, calcNode, alLookup, hidx, hfind]

/-- C4, witness: the empty device graph with target node id 1. -/
theorem C4_witness : evaluateNodeInput dummyPrims [] 1 [] [] 1 = none :=
  C4_missing_target_ub dummyPrims [] 1 [] [] 1 (by simp)

/-! ## Claim C7 -/

/-- C7, counterexample: the dependent of the unrecognized node had the
stored default "true" on its input port, but after the pass that input
holds the empty string — the memo operator[] default that the
dependency-copy loop wrote over the default. -/
theorem C7_counterexample :
    unkNodes.map (fun n => n.inputs.map (fun i => i.data)) = [[], ["true"]] ∧
    (devicePass dummyPrims [] 50 7 unkNodes unkRels).map
      (fun r => r.1.map (fun n => n.inputs.map (fun i => i.data))) = some [[], [""]] := by decide

/-- C7 (amended): the unrecognized node produces no output change (its
output port still holds "orig" and no memo entry is written for it), and
its dependent is still evaluated — but with its connected input
overwritten by the empty string read through the memo operator[]
default, not with the stored default it previously held, so the NOT
node computes NOT(coerce "") = true. -/
theorem C7_amended_scenario :
    devicePass dummyPrims [] 50 7 unkNodes unkRels = some (unkExpected, [], [1, 2, 1]) := by
  decide

/-! ## Claim C8 -/

/-- C8, counterexample: both port references of c8Edge are members of
the set of all port ids of c8Nodes (the union of input and output ids),
yet decodeLogicData discards the edge, because its inputId is an output
port id and the code checks inputId against input ids only. -/
theorem C8_counterexample :
    c8Edge.inputId ∈ allPortIdsOf c8Nodes ∧ c8Edge.outputId ∈ allPortIdsOf c8Nodes ∧
    filterRelationships c8Nodes [c8Edge] = [] := by decide

/-- C8 (amended): decodeLogicData admits a candidate edge exactly when
its inputId is a member of the union of the input port ids and its
outputId is a member of the union of the output port ids; every other
edge is dropped from the stored relationship list. -/
theorem C8_amended_filter (nodes : List NodeData) (rels : List RelationshipData)
    (r : RelationshipData) :
    r ∈ filterRelationships nodes rels ↔
      r ∈ rels ∧ r.inputId ∈ inputIdsOf nodes ∧ r.outputId ∈ outputIdsOf nodes := by
  simp [filterRelationships, List.mem_filter, and_assoc]

/-! ## Claim C9 -/

/-- C9: the DIVIDE entry of mathNodeMap (availableId 11) yields 0
whenever the second input is 0, by its explicit zero-divisor guard, for
any instantiation of the double primitives. -/
theorem C9_divide_zero (p : Prims) (a b : ℚ) (h : b = 0) :
    mathFn p 11 [a, b] = some 0 := by
  subst h
  simp [mathFn, binQ]

/-- C9, witness: DIVIDE(5, 0) evaluates to 0. -/
theorem C9_witness : (0 : ℚ) = 0 ∧ mathFn dummyPrims 11 [5, 0] = some 0 :=
  ⟨rfl, C9_divide_zero dummyPrims 5 0 rfl⟩

/-! ## Claim C10 -/

/-- C10: a decision accepted outside any debounce window (no recorded
trigger time, or the window elapsed) both invokes the callback at once
and records the value in pendingValues without clearing it; the first
sweep at least debounceDuration later, with no intervening decisions,
invokes the callback again with the same value — one stable decision is
dispatched twice. -/
theorem C10_double_dispatch (lm : List (Int × Nat)) (d : Int) (v : Bool)
    (t0 t1 dur : Nat)
    (hacc : alLookup lm d = none ∨ ulSub t0 ((alLookup lm d).getD 0) ≥ dur)
    (hgap : ulSub t1 t0 ≥ dur) :
    (processDeviceChange dur ⟨[], lm⟩ d t0 v).2 = some v ∧
    alLookup (processDeviceChange dur ⟨[], lm⟩ d t0 v).1.pending d = some v ∧
    (processPendingChanges dur (processDeviceChange dur ⟨[], lm⟩ d t0 v).1 t1).1 = [(d, v)] := by
  have h1 : ¬((alLookup (DebSt.mk [] lm).pending d).isSome = true ∧
      (alLookup (DebSt.mk [] lm).pending d).getD v ≠ v) := by
    simp [alLookup]
  have hfire : processDeviceChange dur ⟨[], lm⟩ d t0 v =
      (⟨alSet [] d v, alSet lm d t0⟩, some v) := by
    unfold processDeviceChange
    rw [if_neg h1, if_pos hacc]
  rw [hfire]
  refine ⟨rfl, ?_, ?_⟩
  · exact alLookup_alSet_self [] d v
  · simp [processPendingChanges, alSet, sweepGo, alTouch, alGetD, alLookup_alSet_self, hgap]

/-! ## Claim C5 -/

/-- C5: for a device graph with globally unique port ids whose arc
relation has no directed cycle, the order returned by topologicalSort
is a valid linearization: for every relationship in the list, the node
owning the producing output port appears strictly before the node
owning the consuming input port. -/
theorem C5_topo_linearization (nodes : List NodeData) (rels : List RelationshipData)
    (hports : (portIdsSeq nodes).Nodup)
    (hacyc : ∀ x, ¬ Relation.TransGen (isArc nodes rels) x x) :
    ∀ r ∈ rels, ∀ nu ∈ nodes, ∀ nv ∈ nodes,
      r.outputId ∈ nu.outputs.map (fun o => o.id) →
      r.inputId ∈ nv.inputs.map (fun i => i.id) →
      nu.id ∈ topologicalSort nodes rels ∧ nv.id ∈ topologicalSort nodes rels ∧
      (topologicalSort nodes rels).indexOf nu.id <
        (topologicalSort nodes rels).indexOf nv.id := by
  intro r hr nu hnu nv hnv hout hin
  have hu : portToNode nodes r.outputId = nu.id :=
    portToNode_owner nodes hports nu hnu r.outputId (List.mem_append.mpr (Or.inr hout))
  have hv : portToNode nodes r.inputId = nv.id :=
    portToNode_owner nodes hports nv hnv r.inputId (List.mem_append.mpr (Or.inl hin))
  have harc : (nu.id, nv.id) ∈ buildArcs nodes rels := by
    have h1 : (portToNode nodes r.outputId, portToNode nodes r.inputId) ∈
        buildArcs nodes rels := List.mem_map_of_mem _ hr
    rwa [hu, hv] at h1
  have key : ∀ a ∈ buildArcs nodes rels,
      a.1 ∈ topologicalSort nodes rels ∧ a.2 ∈ topologicalSort nodes rels ∧
      (topologicalSort nodes rels).indexOf a.1 <
        (topologicalSort nodes rels).indexOf a.2 := by
    rw [topologicalSort_eq]
    set arcs := buildArcs nodes rels with harcs
    set d0 := buildDeg arcs with hd0
    set seeds := (d0.filter (fun p => p.2 == 0)).map (fun p => p.1) with hseeds
    set kr := kahnLoop (adjOf arcs) (d0.length + 1) seeds d0 [] with hkr
    have hpost : KahnInv arcs [] kr.2 kr.1 :=
      kahnLoop_post arcs (d0.length + 1) seeds d0 [] (kahnInv_init arcs) (by simp)
    have hall : ∀ x ∈ arcNodes arcs, x ∈ kr.1 :=
      kahnInv_all_of_acyclic arcs kr.2 kr.1 hpost (fun x hx => hacyc x hx)
    have hlen : kr.1.length = kr.2.length := by
      have h1 : kr.1 ⊆ alKeys kr.2 := fun y hy => (hpost.keys y).mpr (hpost.accR y hy)
      have h2 : alKeys kr.2 ⊆ kr.1 := fun y hy => hall y ((hpost.keys y).mp hy)
      have hs1 := List.subperm_of_subset hpost.accN h1
      have hnd2 : (alKeys kr.2).Nodup := alKeys_nodup_of_ASorted _ hpost.sorted
      have hs2 := List.subperm_of_subset hnd2 h2
      have hl1 := hs1.length_le
      have hl2 := hs2.length_le
      have hkl : (alKeys kr.2).length = kr.2.length := by simp [alKeys]
      omega
    rw [if_neg (fun hne => hne hlen)]
    intro a ha
    exact ⟨hall a.1 (arc_fst_mem_arcNodes arcs a ha),
      hall a.2 (arc_snd_mem_arcNodes arcs a ha),
      (hpost.sound a ha (hall a.2 (arc_snd_mem_arcNodes arcs a ha))).2⟩
  exact key (nu.id, nv.id) harc

/-- The diamond graph arc relation is acyclic: node ids strictly
increase along every arc. -/
theorem diamond_acyclic : ∀ x, ¬ Relation.TransGen (isArc diamondNodes diamondRels) x x := by
  apply no_cycle_of_rank (fun x => x)
  intro u v huv
  have harcs : buildArcs diamondNodes diamondRels = [(1, 2), (1, 3), (2, 4), (3, 4)] := by
    decide
  have huv2 : (u, v) ∈ ([(1, 2), (1, 3), (2, 4), (3, 4)] : List (Int × Int)) := by
    rw [← harcs]
    exact huv
  simp at huv2
  rcases huv2 with ⟨h1, h2⟩ | ⟨h1, h2⟩ | ⟨h1, h2⟩ | ⟨h1, h2⟩ <;> subst h1 <;> subst h2 <;>
    norm_num

/-- C5, witness: the diamond graph, its first relationship (output port
11 of node 1 into input port 20 of node 2), with the hypotheses
discharged concretely. -/
theorem C5_witness :
    diamondN1.id ∈ topologicalSort diamondNodes diamondRels ∧
    diamondN2.id ∈ topologicalSort diamondNodes diamondRels ∧
    (topologicalSort diamondNodes diamondRels).indexOf diamondN1.id <
      (topologicalSort diamondNodes diamondRels).indexOf diamondN2.id :=
  C5_topo_linearization diamondNodes diamondRels (by decide) diamond_acyclic
    (mkRel 20 11) (by decide) diamondN1 (by decide) diamondN2 (by decide)
    (by decide) (by decide)

/-! ## Claim C6 -/

/-- C6: when the edge-registered nodes of a device graph contain a
directed cycle, topologicalSort returns the empty order, the evaluation
pass for that device is skipped entirely, and the node store comes out
of the pass unchanged with no terminal decision dispatched. -/
theorem C6_cycle_skips_pass (p : Prims) (devVals : List (Int × String)) (fuel : Nat)
    (deviceId : Int) (nodes : List NodeData) (rels : List RelationshipData)
    (hcyc : ∃ x, Relation.TransGen (isArc nodes rels) x x) :
    topologicalSort nodes rels = [] ∧
    devicePass p devVals fuel deviceId nodes rels = some (nodes, [], []) := by
  have htopo : topologicalSort nodes rels = [] := by
    obtain ⟨x, hx⟩ := hcyc
    rw [topologicalSort_eq]
    set arcs := buildArcs nodes rels with harcs
    set d0 := buildDeg arcs with hd0
    set seeds := (d0.filter (fun p => p.2 == 0)).map (fun p => p.1) with hseeds
    set kr := kahnLoop (adjOf arcs) (d0.length + 1) seeds d0 [] with hkr
    have hpost : KahnInv arcs [] kr.2 kr.1 :=
      kahnLoop_post arcs (d0.length + 1) seeds d0 [] (kahnInv_init arcs) (by simp)
    have hx2 : Relation.TransGen (arcStep arcs) x x := hx
    have hne : kr.1.length ≠ kr.2.length := by
      intro hlen
      have hall := kahnInv_complete_of_length arcs kr.2 kr.1 hpost hlen
      have hmono := kahnInv_idx_mono arcs kr.2 kr.1 hpost hall
      exact lt_irrefl _ (hmono x x hx2)
    rw [if_pos hne]
  refine ⟨htopo, ?_⟩
  unfold devicePass
  rw [htopo]
  rfl

/-- C6, witness: the two-node cyclic graph; the cycle witness is the
two-arc loop between nodes 1 and 2. -/
theorem C6_witness :
    topologicalSort cycNodes cycRels = [] ∧
    devicePass dummyPrims [] 10 7 cycNodes cycRels = some (cycNodes, [], []) :=
  C6_cycle_skips_pass dummyPrims [] 10 7 cycNodes cycRels
    ⟨1, Relation.TransGen.tail
      (Relation.TransGen.single
        (show (1, 2) ∈ buildArcs cycNodes cycRels by decide))
      (show (2, 1) ∈ buildArcs cycNodes cycRels by decide)⟩

/-- C10, witness: device 1, value true accepted at t=0 from the initial
state with debounceDuration 10000, swept at t=10000. -/
theorem C10_witness :
    (processDeviceChange 10000 ⟨[], []⟩ 1 0 true).2 = some true ∧
    alLookup (processDeviceChange 10000 ⟨[], []⟩ 1 0 true).1.pending 1 = some true ∧
    (processPendingChanges 10000 (processDeviceChange 10000 ⟨[], []⟩ 1 0 true).1 10000).1 =
      [(1, true)] :=
  C10_double_dispatch [] 1 true 0 10000 10000 (Or.inl rfl) (by decide)

end NodeDecision
